import Mathlib

/-!
Verification of the slang elaboration and string-method cores.

Shallow embedding of:
* `source/compilation/builtins/StringMethods.cpp` — the constant-evaluation
  semantics of the built-in `string` methods `compare`/`icompare` and the
  `atoi`/`atohex`/`atooct`/`atobin` family.
* `source/ast/ElabVisitors.h` — `DiagnosticVisitor` (instance traversal,
  cycle detection, instance counting, error-limit short-circuit),
  `DefParamVisitor` (level-bounded defparam collection) and the
  generic-class specialization fixpoint in `DiagnosticVisitor::finalize`.

Strings are modelled as lists of byte values (`List Nat`, each < 256); the
symbol hierarchy is modelled by explicit inductive trees plus a map from
definition/body ids to member lists, traversed with a fuel parameter so that
a potentially infinitely recursive hierarchy is representable.
-/

/-! ## String methods: `compare` / `icompare` (StringMethods.cpp:101-140) -/

/-- ASCII `std::tolower` on a byte value (C locale): maps 65..90 to 97..122,
identity elsewhere. -/
def toLowerByte (c : Nat) : Nat :=
  if 65 ≤ c ∧ c ≤ 90 then c + 32 else c

/-- Byte-lexicographic three-way comparison, the sign of
`std::string::compare` (`char_traits<char>` compares as unsigned bytes),
already clamped to -1/0/1 as done in `StringCompareMethod::eval`. -/
def compareBytes : List Nat → List Nat → Int
  | [], [] => 0
  | [], _ :: _ => -1
  | _ :: _, [] => 1
  | a :: as, b :: bs =>
    if a < b then -1 else if b < a then 1 else compareBytes as bs

/-- The `ignoreCase` loop of `StringCompareMethod::eval`:
`while ((result = tolower(*p1) - tolower(*p2++)) == 0) { if (*p1++ == 0) break; }`
run over `lhs.c_str()`/`rhs.c_str()`; reading past the end of a list yields
the terminating NUL (byte 0). Returns the final `result`. -/
def icompareLoop : List Nat → List Nat → Int
  | [], p2 => 0 - Int.ofNat (toLowerByte (p2.headD 0))
  | c1 :: t1, p2 =>
    if toLowerByte c1 = toLowerByte (p2.headD 0) then
      (if c1 = 0 then 0 else icompareLoop t1 p2.tail)
    else Int.ofNat (toLowerByte c1) - Int.ofNat (toLowerByte (p2.headD 0))

/-- `SVInt(32, uint64_t(result), true)`: convert the C `int` result through
`uint64_t`, truncate to 32 bits, and read back as a signed 32-bit value. -/
def wrap32 (r : Int) : Int :=
  let u : Nat := (r % 2 ^ 64).toNat % 2 ^ 32
  if u < 2 ^ 31 then (u : Int) else (u : Int) - 2 ^ 32

/-- `StringCompareMethod::eval` on already-evaluated byte strings:
`icompare` runs the case-folding loop, `compare` clamps
`std::string::compare` to -1/0/1; either result is packed as a signed
32-bit `SVInt`. -/
def stringCompareEval (ignoreCase : Bool) (lhs rhs : List Nat) : Int :=
  let result := if ignoreCase then icompareLoop lhs rhs else compareBytes lhs rhs
  wrap32 result

/-- The byte string a case-insensitive comparison actually sees: the part
before the first NUL, case-folded. -/
def foldedPrefixBytes (s : List Nat) : List Nat :=
  (s.takeWhile (fun c => c ≠ 0)).map toLowerByte

/-! ## String methods: the `atoi` family (StringMethods.cpp:167-188) -/

/-- C `isspace` in the default locale, on a byte. -/
def isSpaceByte (c : Nat) : Bool :=
  c = 32 || c = 9 || c = 10 || c = 11 || c = 12 || c = 13

/-- Numeric value of a byte as a `strtol` digit: `0`-`9`, then letters
counting from 10 (case-insensitive); `none` for non-alphanumeric bytes. -/
def digitVal (c : Nat) : Option Nat :=
  if 48 ≤ c ∧ c ≤ 57 then some (c - 48)
  else if 97 ≤ c ∧ c ≤ 122 then some (c - 87)
  else if 65 ≤ c ∧ c ≤ 90 then some (c - 55)
  else none

/-- Whether a byte is a valid digit of the given radix for `strtol`. -/
def validDigit (base c : Nat) : Bool :=
  match digitVal c with
  | some v => decide (v < base)
  | none => false

/-- Digit-accumulation loop of `strtol`: consume valid digits of the radix,
stop at the first byte that is not one. -/
def strtolDigits (base : Nat) : List Nat → Nat → Nat
  | [], acc => acc
  | c :: cs, acc =>
    if validDigit base c then strtolDigits base cs (acc * base + (digitVal c).getD 0)
    else acc

/-- `strtol(s, nullptr, base)` on a byte string, for an explicit radix:
skip whitespace, optional sign, an optional `0x`/`0X` prefix when the radix
is 16 (consumed only when followed by a hex digit), then accumulate digits;
the result saturates at `LONG_MAX`/`LONG_MIN` (64-bit `long`). -/
def strtolModel (base : Nat) (s : List Nat) : Int :=
  let s1 := s.dropWhile (fun c => isSpaceByte c)
  let neg : Bool := s1.headD 0 = 45
  let s2 := if s1.headD 0 = 43 ∨ s1.headD 0 = 45 then s1.tail else s1
  let s3 :=
    if base = 16 ∧ s2.headD 0 = 48 ∧ (s2.tail.headD 0 = 120 ∨ s2.tail.headD 0 = 88) ∧
        validDigit 16 (s2.tail.tail.headD 0) = true
    then s2.tail.tail else s2
  let v := strtolDigits base s3 0
  if 2 ^ 63 - 1 < v then (if neg then -(2 ^ 63) else 2 ^ 63 - 1)
  else (if neg then -(v : Int) else (v : Int))

/-- `StringAtoIMethod::eval` on an already-evaluated receiver: erase every
`_` (byte 95), run `strtol` with the method's radix, and pack the `long`
result as a signed 32-bit `SVInt` (`SVInt(32, uint64_t(result), true)`). -/
def atoiEval (base : Nat) (s : List Nat) : Int :=
  wrap32 (strtolModel base (s.filter (fun c => c ≠ 95)))

/-- The receiver `"Hello_42"` as bytes. -/
def helloBytes : List Nat := [72, 101, 108, 108, 111, 95, 52, 50]

/-- Plain value of a digit string in a radix (most significant first):
what `strtol` returns when every byte is a valid digit and no clamping
occurs. -/
def digitsValue (base : Nat) (ds : List Nat) : Nat :=
  ds.foldl (fun a c => a * base + (digitVal c).getD 0) 0

/-! ## DiagnosticVisitor (ElabVisitors.h:22-406)

The elaboration visitor is modelled over a design that maps instance-body
ids to member lists.  A member is either a generic lazily-forced symbol
(`plain`, standing for the symbols handled by `handleDefault`: forcing its
lazy attributes emits a fixed list of diagnostics) or a nested instance.
The mutable visitor fields (`numErrors` via the diagnostic sink,
`hierarchyProblem`, `activeInstanceBodies`, `instanceCount`) are threaded
through a state record; a ghost event log records which lazy members were
forced, for observability.  Traversal uses fuel: `none` means the fuel ran
out, never a source-level outcome. -/

/-- A diagnostic as the elaborator's sink sees it. -/
inductive EDiag
  | infRec (inst : Nat)
  | maxDepth (inst : Nat)
  | other (n : Nat)
deriving DecidableEq, Repr

/-- Ghost events recording the side effects of `handle(const InstanceSymbol&)`
and `handleDefault`. -/
inductive EEvent
  | forcedSym (id : Nat)
  | forcedAttrs (id : Nat)
  | forcedPorts (id : Nat)
  | entered (defId : Nat)
  | enteredOK (defId : Nat)
deriving DecidableEq, Repr

/-- A member of an instance body. `plain id ds`: any non-instance symbol,
whose lazy forcing emits diagnostics `ds`; `inst id defId bodyId aDs pDs`:
an `InstanceSymbol` of definition `defId` whose body is `bodyId`, whose
attribute forcing emits `aDs` and whose port-connection forcing emits
`pDs`. -/
inductive EMember
  | plain (id : Nat) (diags : List Nat)
  | inst (id : Nat) (defId : Nat) (bodyId : Nat) (attrDiags portDiags : List Nat)
deriving DecidableEq, Repr

/-- The compilation as the visitor sees it: instance bodies by id. -/
structure EDesign where
  bodies : Nat → List EMember

/-- `CompilationOptions` fields read by the visitor. -/
structure EConfig where
  errorLimit : Nat
  maxInstanceDepth : Nat

/-- Visitor state: the diagnostic sink (`numErrors` is its length), the
sticky `hierarchyProblem` flag, the active-instance-bodies set, the
per-definition instance count and the ghost log. -/
structure EState where
  diags : List EDiag
  hierarchyProblem : Bool
  activeBodies : List Nat
  instanceCount : Nat → Nat
  log : List EEvent

/-- `numErrors > errorLimit || hierarchyProblem`, the short-circuit test at
the top of `handleDefault` and of `handle(const InstanceSymbol&)`. -/
def shortCircuit (cfg : EConfig) (s : EState) : Bool :=
  decide (cfg.errorLimit < s.diags.length) || s.hierarchyProblem

/-- A pending traversal task: a single member (`mem`), an instance body
about to be visited through `handleDefault` (`body`, which re-checks the
short-circuit flags), or the tail of a member list inside `visitDefault`
(`seq`). -/
inductive EJob
  | mem (m : EMember)
  | body (ms : List EMember)
  | seq (ms : List EMember)

/-- The `DiagnosticVisitor` traversal. Mirrors ElabVisitors.h:
* `seq` — `visitDefault` iterating the members of a scope;
* `body` — visiting an `InstanceBodySymbol` (its handler is `handleDefault`,
  which first re-checks `numErrors > errorLimit || hierarchyProblem`);
* `mem (plain ..)` — `handleDefault`: short-circuit check, then force the
  lazy members, emitting their diagnostics;
* `mem (inst ..)` — `handle(const InstanceSymbol&)`: short-circuit check,
  `instanceCount[&symbol.getDefinition()]++`, force attributes and port
  connections, `activeInstanceBodies.emplace(&symbol.body)` with the
  `InfinitelyRecursiveHierarchy` diagnostic on failure, the
  `MaxInstanceDepthExceeded` check against the set size, then the body
  visit, with the `ScopeGuard` erasing the body on every exit path after a
  successful insertion. -/
def visitE (D : EDesign) (cfg : EConfig) : Nat → EJob → EState → Option EState
  | 0, _, _ => none
  | Nat.succ _, EJob.seq [], s => some s
  | Nat.succ fuel, EJob.seq (m :: ms), s =>
    match visitE D cfg fuel (EJob.mem m) s with
    | none => none
    | some st => visitE D cfg fuel (EJob.seq ms) st
  | Nat.succ fuel, EJob.body ms, s =>
    if shortCircuit cfg s then some s
    else visitE D cfg fuel (EJob.seq ms) s
  | Nat.succ _, EJob.mem (EMember.plain id ds), s =>
    if shortCircuit cfg s then some s
    else
      some { s with log := s.log ++ [EEvent.forcedSym id],
                    diags := s.diags ++ ds.map EDiag.other }
  | Nat.succ fuel, EJob.mem (EMember.inst id defId bodyId aDs pDs), s =>
    if shortCircuit cfg s then some s
    else
      let s1 : EState :=
        { s with
          instanceCount := fun d => if d = defId then s.instanceCount d + 1 else s.instanceCount d,
          log := s.log ++ [EEvent.entered defId] }
      let s2 : EState :=
        { s1 with log := s1.log ++ [EEvent.forcedAttrs id],
                  diags := s1.diags ++ aDs.map EDiag.other }
      let s3 : EState :=
        { s2 with log := s2.log ++ [EEvent.forcedPorts id],
                  diags := s2.diags ++ pDs.map EDiag.other }
      if bodyId ∈ s3.activeBodies then
        some { s3 with diags := s3.diags ++ [EDiag.infRec id], hierarchyProblem := true }
      else
        let s4 : EState := { s3 with activeBodies := bodyId :: s3.activeBodies }
        if cfg.maxInstanceDepth < s4.activeBodies.length then
          some { s4 with diags := s4.diags ++ [EDiag.maxDepth id],
                         hierarchyProblem := true,
                         activeBodies := s4.activeBodies.erase bodyId }
        else
          let s5 : EState := { s4 with log := s4.log ++ [EEvent.enteredOK defId] }
          match visitE D cfg fuel (EJob.body (D.bodies bodyId)) s5 with
          | none => none
          | some st => some { st with activeBodies := st.activeBodies.erase bodyId }

/-- The state at the start of elaboration: empty sink, clear flag, empty
active set, all instance counts zero. -/
def initEState : EState :=
  { diags := [], hierarchyProblem := false, activeBodies := [], instanceCount := fun _ => 0,
    log := [] }

/-- Whether a diagnostic is `InfinitelyRecursiveHierarchy`. -/
def isInfRec (d : EDiag) : Bool :=
  match d with
  | EDiag.infRec _ => true
  | _ => false

/-- Number of `InfinitelyRecursiveHierarchy` diagnostics in the sink. -/
def countInfRec (l : List EDiag) : Nat :=
  l.countP isInfRec

/-- Number of instance-handler entries for a definition that passed the
short-circuit check (the point where `instanceCount` is incremented). -/
def countEntered (l : List EEvent) (d : Nat) : Nat :=
  l.count (EEvent.entered d)

/-- Number of successful instance entries for a definition: entries that
were not rejected for infinite recursion or for exceeding the maximum
instance depth (the point where `visit(symbol.body)` is reached). -/
def countEnteredOK (l : List EEvent) (d : Nat) : Nat :=
  l.count (EEvent.enteredOK d)

/-- Invariant tying the recursion diagnostic to the hierarchy-problem flag:
while the flag is clear no `InfinitelyRecursiveHierarchy` has been emitted;
at most one is ever emitted; and once one has been emitted the flag is set
and the diagnostic is the last one in the sink. -/
def recDiagInv (s : EState) : Prop :=
  (s.hierarchyProblem = false → countInfRec s.diags = 0) ∧
  countInfRec s.diags ≤ 1 ∧
  (1 ≤ countInfRec s.diags →
    s.hierarchyProblem = true ∧ ∃ i, s.diags.getLast? = some (EDiag.infRec i))

/-- Invariant: the per-definition instance count equals the number of
instance-handler entries for that definition that passed the short-circuit
check. -/
def instCountInv (s : EState) : Prop :=
  ∀ d, s.instanceCount d = countEntered s.log d

/-! ## DefParamVisitor (ElabVisitors.h:470-557)

The defparam visitor walks the same kind of hierarchy, but recursion
detection is keyed by definition (not body), generate nesting is tracked
with a depth counter against a target level, and unrecognized symbol kinds
are ignored entirely (`template<typename T> void handle(const T&) {}` does
not call `visitDefault`).  Instance bodies are given by a map from
definition id to member list; fuel bounds the traversal. -/

/-- A symbol as the `DefParamVisitor` distinguishes them. -/
inductive GSym
  | dp (id : Nat)
  | inst (id : Nat) (defId : Nat)
  | gen (isInst : Bool) (ms : List GSym)
  | genArr (ms : List GSym)
  | leaf

/-- The hierarchy: instance bodies by definition id, plus the top-level
members of the root. -/
structure DPDesign where
  gbodies : Nat → List GSym
  top : List GSym

/-- The visitor's constructor arguments. -/
structure DPConfig where
  maxInstanceDepth : Nat
  generateLevel : Nat

/-- Ghost events of the defparam traversal: a `DefParamSymbol` handler run
(with the generate depth at that point), an instance-handler entry that
passed both early-outs, a `GenerateBlockSymbol` handler that passed the
`isInstantiated`/`hierarchyProblem` gate, and an actual descent into a
generate block. -/
inductive DPEvent
  | dpSeen (id depth : Nat)
  | instSeen (defId depth : Nat)
  | genSeen (depth : Nat) (inRec : Bool)
  | genDescend (depth : Nat) (inRec : Bool)
deriving DecidableEq, Repr

/-- `DefParamVisitor` mutable fields, plus the ghost log. -/
structure DPState where
  found : List Nat
  activeInstances : List Nat
  instanceDepth : Nat
  numBlocksSeen : Nat
  generateDepth : Nat
  inRecursiveInstance : Bool
  hierarchyProblem : Option Nat
  log : List DPEvent

/-- Traversal tasks: one symbol, a member list inside `visitDefault`, or
the member loop of `handle(const GenerateBlockArraySymbol&)` (which
re-checks `hierarchyProblem` before every member). -/
inductive GJob
  | one (g : GSym)
  | seq (ms : List GSym)
  | seqChk (ms : List GSym)

/-- The `DefParamVisitor` traversal, mirroring ElabVisitors.h:477-543:
* `dp` — collect the defparam iff `generateDepth <= generateLevel`;
* `inst` — early out on `hierarchyProblem`, then on
  `instanceDepth > maxInstanceDepth` (recording the offending instance);
  otherwise manage `activeInstances`/`inRecursiveInstance`, count the block
  when `generateDepth <= generateLevel`, and recurse into the body with
  `instanceDepth` incremented;
* `gen` — skip uninstantiated blocks and problem states; stop at the target
  level unless probing a recursive instance; count the block only when
  `generateDepth < generateLevel`; recurse with `generateDepth`
  incremented;
* `genArr` — visit every member, re-checking `hierarchyProblem` each time;
* `leaf` — any other symbol kind: no action, no descent. -/
def visitG (D : DPDesign) (cfg : DPConfig) : Nat → GJob → DPState → Option DPState
  | 0, _, _ => none
  | Nat.succ _, GJob.seq [], s => some s
  | Nat.succ fuel, GJob.seq (m :: ms), s =>
    match visitG D cfg fuel (GJob.one m) s with
    | none => none
    | some st => visitG D cfg fuel (GJob.seq ms) st
  | Nat.succ _, GJob.seqChk [], s => some s
  | Nat.succ fuel, GJob.seqChk (m :: ms), s =>
    if s.hierarchyProblem.isSome then some s
    else
      match visitG D cfg fuel (GJob.one m) s with
      | none => none
      | some st => visitG D cfg fuel (GJob.seqChk ms) st
  | Nat.succ _, GJob.one (GSym.dp id), s =>
    let s1 : DPState := { s with log := s.log ++ [DPEvent.dpSeen id s.generateDepth] }
    if s1.generateDepth ≤ cfg.generateLevel then some { s1 with found := s1.found ++ [id] }
    else some s1
  | Nat.succ fuel, GJob.one (GSym.inst id defId), s =>
    if s.hierarchyProblem.isSome then some s
    else if cfg.maxInstanceDepth < s.instanceDepth then
      some { s with hierarchyProblem := some id }
    else
      let wasIn := s.inRecursiveInstance
      let p : Bool × DPState :=
        if s.inRecursiveInstance then (false, s)
        else if defId ∈ s.activeInstances then (false, { s with inRecursiveInstance := true })
        else (true, { s with activeInstances := defId :: s.activeInstances })
      let s2 : DPState := { p.2 with log := p.2.log ++ [DPEvent.instSeen defId p.2.generateDepth] }
      let s3 : DPState :=
        if s2.generateDepth ≤ cfg.generateLevel
        then { s2 with numBlocksSeen := s2.numBlocksSeen + 1 } else s2
      let s4 : DPState := { s3 with instanceDepth := s3.instanceDepth + 1 }
      match visitG D cfg fuel (GJob.seq (D.gbodies defId)) s4 with
      | none => none
      | some st =>
        let st1 : DPState := { st with instanceDepth := st.instanceDepth - 1,
                                       inRecursiveInstance := wasIn }
        some (if p.1 then { st1 with activeInstances := st1.activeInstances.erase defId }
              else st1)
  | Nat.succ fuel, GJob.one (GSym.gen isInst ms), s =>
    if !isInst || s.hierarchyProblem.isSome then some s
    else
      let s1 : DPState := { s with log := s.log ++ [DPEvent.genSeen s.generateDepth s.inRecursiveInstance] }
      if cfg.generateLevel ≤ s1.generateDepth ∧ s1.inRecursiveInstance = false then some s1
      else
        let s2 : DPState :=
          { s1 with log := s1.log ++ [DPEvent.genDescend s1.generateDepth s1.inRecursiveInstance] }
        let s3 : DPState :=
          if s2.generateDepth < cfg.generateLevel
          then { s2 with numBlocksSeen := s2.numBlocksSeen + 1 } else s2
        let s4 : DPState := { s3 with generateDepth := s3.generateDepth + 1 }
        match visitG D cfg fuel (GJob.seq ms) s4 with
        | none => none
        | some st => some { st with generateDepth := st.generateDepth - 1 }
  | Nat.succ fuel, GJob.one (GSym.genArr ms), s =>
    visitG D cfg fuel (GJob.seqChk ms) s
  | Nat.succ _, GJob.one GSym.leaf, s => some s

/-- Defparam visitor state at the start of a pass. -/
def dpInit : DPState :=
  { found := [], activeInstances := [], instanceDepth := 0, numBlocksSeen := 0,
    generateDepth := 0, inRecursiveInstance := false, hierarchyProblem := none, log := [] }

/-- The defparam ids that were seen at generate depth at or below the
target level, in traversal order. -/
def dpCollected (lvl : Nat) (l : List DPEvent) : List Nat :=
  l.filterMap (fun e =>
    match e with
    | DPEvent.dpSeen i d => if d ≤ lvl then some i else none
    | _ => none)

/-- Number of instance entries at generate depth at or below the target
level. -/
def countInstSeenLE (lvl : Nat) (l : List DPEvent) : Nat :=
  l.countP (fun e =>
    match e with
    | DPEvent.instSeen _ d => decide (d ≤ lvl)
    | _ => false)

/-- Number of instantiated generate blocks whose handler ran at generate
depth at or below the target level (what claim C8 counts). -/
def countGenSeenLE (lvl : Nat) (l : List DPEvent) : Nat :=
  l.countP (fun e =>
    match e with
    | DPEvent.genSeen d _ => decide (d ≤ lvl)
    | _ => false)

/-- Number of generate blocks actually descended into at generate depth at
or below the target level. -/
def countGenDescendLE (lvl : Nat) (l : List DPEvent) : Nat :=
  l.countP (fun e =>
    match e with
    | DPEvent.genDescend d _ => decide (d ≤ lvl)
    | _ => false)

/-- Number of instantiated generate blocks whose handler ran at generate
depth strictly below the target level (what the code counts). -/
def countGenSeenLT (lvl : Nat) (l : List DPEvent) : Nat :=
  l.countP (fun e =>
    match e with
    | DPEvent.genSeen d _ => decide (d < lvl)
    | _ => false)

/-- Invariant: `found` holds exactly the defparams seen at generate depth
at or below the target level, in traversal order. -/
def dpFoundInv (lvl : Nat) (s : DPState) : Prop :=
  s.found = dpCollected lvl s.log

/-- Invariant: `numBlocksSeen` counts the instances entered at generate
depth at or below the target level plus the generate blocks reached at
depth strictly below it. -/
def dpBlocksInv (lvl : Nat) (s : DPState) : Prop :=
  s.numBlocksSeen = countInstSeenLE lvl s.log + countGenSeenLT lvl s.log

/-- Every generate-block descent in the log happened strictly below the
target level or inside a recursive-instance probe. -/
def dpDescendGood (lvl : Nat) (l : List DPEvent) : Prop :=
  ∀ d b, DPEvent.genDescend d b ∈ l → d < lvl ∨ b = true

/-! ## Generic-class fixpoint (`DiagnosticVisitor::finalize`, ElabVisitors.h:360-392)

Generic classes and their specializations are modelled by ids.  Visiting a
specialization may create further specializations (of the same or other
generic classes); this demand-driven growth is a function of the design.
`finalize` is the do/while worklist loop followed by the
invalid-specialization pass for classes that still have no
specialization. -/

/-- The collected generic classes (in collection order), the
specializations each has when `finalize` starts, and the specializations
that get created when a given specialization — or the invalid
specialization of a given class — is visited. -/
structure GCDesign where
  classes : List Nat
  initSpecs : Nat → List Nat
  triggers : Nat → List (Nat × Nat)
  invalidTriggers : Nat → List (Nat × Nat)

/-- State of `finalize`: the per-class specialization lists, the
`visitedSpecs` marker set, the specializations actually passed to
`spec->visit(*this)` (in order), and the classes whose invalid
specialization was visited. -/
structure GCState where
  specs : Nat → List Nat
  visitedSpecs : List Nat
  visitLog : List Nat
  invalidLog : List Nat

/-- Lazy creation of one specialization: appended to its class's list
unless it already exists (the specialization set of a class only grows). -/
def addSpecPair (st : GCState) (cs : Nat × Nat) : GCState :=
  if cs.2 ∈ st.specs cs.1 then st
  else { st with specs := fun c => if c = cs.1 then st.specs c ++ [cs.2] else st.specs c }

/-- `spec->visit(*this)`: record the visit and create whatever
specializations the visit demands. -/
def visitOneSpec (D : GCDesign) (st : GCState) (sp : Nat) : GCState :=
  (D.triggers sp).foldl addSpecPair { st with visitLog := st.visitLog ++ [sp] }

/-- One step of the scan `if (visitedSpecs.emplace(&spec).second)
toVisit.push_back(&spec)`: accumulator is (marker set, toVisit). -/
def scanStep (acc : List Nat × List Nat) (sp : Nat) : List Nat × List Nat :=
  if sp ∈ acc.1 then acc else (acc.1 ++ [sp], acc.2 ++ [sp])

/-- Scan one class's current specializations against the marker set. -/
def scanClass (l : List Nat) (marks : List Nat) : List Nat × List Nat :=
  l.foldl scanStep (marks, [])

/-- One pass of the `for (auto symbol : genericClasses)` loop: scan, visit
everything newly marked, accumulate `didSomething`. -/
def passClasses (D : GCDesign) : List Nat → GCState → Bool → GCState × Bool
  | [], st, did => (st, did)
  | c :: cs, st, did =>
    let p := scanClass (st.specs c) st.visitedSpecs
    let st1 : GCState := { st with visitedSpecs := p.1 }
    let st2 := p.2.foldl (visitOneSpec D) st1
    passClasses D cs st2 (did || !p.2.isEmpty)

/-- The `do { ... } while (didSomething)` loop, fuel-bounded. -/
def phase1 (D : GCDesign) : Nat → GCState → Option GCState
  | 0, _ => none
  | Nat.succ fuel, st =>
    let p := passClasses D D.classes st false
    if p.2 then phase1 D fuel p.1 else some p.1

/-- The trailing pass: every collected generic class that still has zero
specializations gets its invalid specialization visited (which may itself
demand new specializations). -/
def phase2 (D : GCDesign) (st : GCState) : GCState :=
  D.classes.foldl
    (fun st c =>
      if (st.specs c).length = 0 then
        (D.invalidTriggers c).foldl addSpecPair { st with invalidLog := st.invalidLog ++ [c] }
      else st) st

/-- State when `finalize` starts. -/
def gcInit (D : GCDesign) : GCState :=
  { specs := D.initSpecs, visitedSpecs := [], visitLog := [], invalidLog := [] }

/-- `DiagnosticVisitor::finalize`: the worklist fixpoint, then the
invalid-specialization pass. -/
def finalizeGC (D : GCDesign) (fuel : Nat) : Option GCState :=
  (phase1 D fuel (gcInit D)).map (phase2 D)

/-- Invariant of the fixpoint loop: everything in the `visitedSpecs` marker
set has actually been passed to `visit` (each pass visits all of its newly
marked specializations before moving on). -/
def marksVisitedInv (st : GCState) : Prop :=
  ∀ x ∈ st.visitedSpecs, x ∈ st.visitLog

/-! ## Concrete designs used as witnesses and counterexamples -/

/-- A definition that instantiates itself unconditionally: body 0 of
definition 0 contains an instance of definition 0 with the same body. -/
def recDesign : EDesign := ⟨fun _ => [EMember.inst 1 0 0 [] []]⟩

/-- Options for the recursive-design runs: error limit 10, max depth 5. -/
def recConfig : EConfig := ⟨10, 5⟩

/-- Elaborating a root instance of the self-instantiating definition. -/
def recJob : EJob := EJob.mem (EMember.inst 0 0 0 [] [])

/-- Final state of elaborating the self-instantiating design. -/
def recState : EState :=
  (visitE recDesign recConfig 10 recJob initEState).getD initEState

/-- A state in which the hierarchy-problem flag is already set. -/
def flaggedState : EState :=
  { initEState with hierarchyProblem := true }

/-- A state in which instance body 0 is already active (as inside an
enclosing instantiation of that body). -/
def activeBodyState : EState :=
  { initEState with activeBodies := [0] }

/-- Defparam hierarchy with a defparam at generate depth 0, one at depth 1,
and one at depth 1 inside a generate block array. -/
def dpDesign : DPDesign :=
  ⟨fun _ => [GSym.dp 1, GSym.gen true [GSym.dp 2], GSym.genArr [GSym.gen true [GSym.dp 3]]],
   [GSym.inst 0 0]⟩

/-- Defparam visitor arguments: max depth 3, target generate level 1. -/
def dpConfig1 : DPConfig := ⟨3, 1⟩

/-- Final state of the defparam traversal of `dpDesign` at level 1. -/
def dpState1 : DPState :=
  (visitG dpDesign dpConfig1 30 (GJob.seq dpDesign.top) dpInit).getD dpInit

/-- Mutually recursive defparam hierarchy: definition 0's body holds an
instantiated generate block and an instance of definition 1; definition 1's
body instantiates definition 0 again.  The generate block is therefore also
reached inside the recursive-instance probe. -/
def dpRecDesign : DPDesign :=
  ⟨fun d => if d = 0 then [GSym.gen true [], GSym.inst 10 1] else [GSym.inst 20 0],
   [GSym.inst 0 0]⟩

/-- Defparam visitor arguments: max depth 3, target generate level 0. -/
def dpRecConfig : DPConfig := ⟨3, 0⟩

/-- Final state of the defparam traversal of `dpRecDesign` at level 0. -/
def dpRecState : DPState :=
  (visitG dpRecDesign dpRecConfig 30 (GJob.seq dpRecDesign.top) dpInit).getD dpInit

/-- One collected generic class with no specializations, whose invalid
specialization demands a (real) specialization `7` of the same class when
visited. -/
def gcInvDesign : GCDesign :=
  ⟨[0], fun _ => [], fun _ => [], fun c => if c = 0 then [(0, 7)] else []⟩

/-- `finalize` outcome on `gcInvDesign`. -/
def gcInvState : GCState :=
  (finalizeGC gcInvDesign 3).getD (gcInit gcInvDesign)

/-- Two collected generic classes with cascading specializations: visiting
specialization 1 (of class 0) creates specialization 2 of class 1, and
visiting 2 creates specialization 3 of class 0. -/
def gcCascadeDesign : GCDesign :=
  ⟨[0, 1], fun c => if c = 0 then [1] else [],
   fun sp => if sp = 1 then [(1, 2)] else if sp = 2 then [(0, 3)] else [],
   fun _ => []⟩

/-- State after the fixpoint loop of `finalize` on `gcCascadeDesign`. -/
def gcCascadeState : GCState :=
  (phase1 gcCascadeDesign 6 (gcInit gcCascadeDesign)).getD (gcInit gcCascadeDesign)

/-! ## Lemmas: string comparison -/

theorem toLowerByte_eq_zero (c : Nat) : toLowerByte c = 0 ↔ c = 0 := by
  unfold toLowerByte; split <;> omega

theorem compareBytes_trichot (l : List Nat) :
    ∀ r, compareBytes l r = -1 ∨ compareBytes l r = 0 ∨ compareBytes l r = 1 := by
  induction l with
  | nil => intro r; cases r <;> simp [compareBytes]
  | cons a as ih =>
    intro r
    cases r with
    | nil => simp [compareBytes]
    | cons b bs =>
      by_cases hab : a < b
      · simp [compareBytes, hab]
      · by_cases hba : b < a
        · simp [compareBytes, hab, hba]
        · simpa [compareBytes, hab, hba] using ih bs

theorem compareBytes_eq_zero (l : List Nat) :
    ∀ r, compareBytes l r = 0 ↔ l = r := by
  induction l with
  | nil => intro r; cases r <;> simp [compareBytes]
  | cons a as ih =>
    intro r
    cases r with
    | nil => simp [compareBytes]
    | cons b bs =>
      by_cases hab : a < b
      · simp only [compareBytes, if_pos hab]
        constructor
        · intro h; omega
        · intro h
          have : a = b := by exact (List.cons.injEq a as b bs).mp h |>.1
          omega
      · by_cases hba : b < a
        · simp only [compareBytes, if_neg hab, if_pos hba]
          constructor
          · intro h; omega
          · intro h
            have : a = b := by exact (List.cons.injEq a as b bs).mp h |>.1
            omega
        · have hb : a = b := by omega
          subst hb
          simp only [compareBytes, if_neg hab, if_neg hba]
          rw [ih bs]
          simp

theorem compareBytes_eq_neg_one (l : List Nat) :
    ∀ r, compareBytes l r = -1 ↔ List.Lex (· < ·) l r := by
  induction l with
  | nil =>
    intro r
    cases r with
    | nil =>
      simp only [compareBytes]
      constructor
      · intro h; omega
      · intro h; cases h
    | cons b bs =>
      simp only [compareBytes]
      constructor
      · intro _; exact List.Lex.nil
      · intro _; trivial
  | cons a as ih =>
    intro r
    cases r with
    | nil =>
      simp only [compareBytes]
      constructor
      · intro h; omega
      · intro h; cases h
    | cons b bs =>
      by_cases hab : a < b
      · simp only [compareBytes, if_pos hab]
        constructor
        · intro _; exact List.Lex.rel hab
        · intro _; trivial
      · by_cases hba : b < a
        · simp only [compareBytes, if_neg hab, if_pos hba]
          constructor
          · intro h; omega
          · intro h
            cases h with
            | rel h2 => omega
            | cons h2 => omega
        · have hb : a = b := by omega
          subst hb
          simp only [compareBytes, if_neg hab, if_neg hba]
          rw [ih bs]
          constructor
          · intro h; exact List.Lex.cons h
          · intro h
            cases h with
            | rel h2 => omega
            | cons h2 => exact h2

theorem foldedPrefixBytes_nil : foldedPrefixBytes [] = [] := rfl

theorem foldedPrefixBytes_zero (t : List Nat) : foldedPrefixBytes (0 :: t) = [] := by
  simp [foldedPrefixBytes, List.takeWhile_cons]

theorem foldedPrefixBytes_cons (c : Nat) (t : List Nat) (h : c ≠ 0) :
    foldedPrefixBytes (c :: t) = toLowerByte c :: foldedPrefixBytes t := by
  simp [foldedPrefixBytes, List.takeWhile_cons, h]

theorem compareBytes_cons_self (x : Nat) (as bs : List Nat) :
    compareBytes (x :: as) (x :: bs) = compareBytes as bs := by
  simp [compareBytes]

theorem icompareLoop_sign (l : List Nat) :
    ∀ r, Int.sign (icompareLoop l r) =
      compareBytes (foldedPrefixBytes l) (foldedPrefixBytes r) := by
  induction l with
  | nil =>
    intro r
    cases r with
    | nil => simp [icompareLoop, foldedPrefixBytes, compareBytes, toLowerByte]
    | cons c2 t2 =>
      by_cases h2 : c2 = 0
      · subst h2
        simp [icompareLoop, foldedPrefixBytes_zero, foldedPrefixBytes_nil, compareBytes,
          toLowerByte]
      · have hl2 : toLowerByte c2 ≠ 0 := fun h => h2 ((toLowerByte_eq_zero c2).mp h)
        rw [foldedPrefixBytes_nil, foldedPrefixBytes_cons c2 t2 h2]
        simp only [icompareLoop, List.headD]
        have hneg : (0 : Int) - Int.ofNat (toLowerByte c2) < 0 := by
          have : 0 < toLowerByte c2 := Nat.pos_of_ne_zero hl2
          simp only [Int.ofNat_eq_coe]
          omega
        rw [Int.sign_eq_neg_one_of_neg hneg]
        simp [compareBytes]
  | cons c1 t1 ih =>
    intro r
    by_cases h1 : c1 = 0
    · subst h1
      rw [foldedPrefixBytes_zero]
      cases r with
      | nil => simp [icompareLoop, toLowerByte, foldedPrefixBytes_nil, compareBytes]
      | cons c2 t2 =>
        by_cases h2 : c2 = 0
        · subst h2
          simp [icompareLoop, toLowerByte, foldedPrefixBytes_zero, compareBytes]
        · have hl2 : toLowerByte c2 ≠ 0 := fun h => h2 ((toLowerByte_eq_zero c2).mp h)
          rw [foldedPrefixBytes_cons c2 t2 h2]
          simp only [icompareLoop, List.headD]
          have hne : toLowerByte 0 ≠ toLowerByte c2 := by
            simpa [toLowerByte] using fun h => hl2 h.symm
          rw [if_neg hne]
          have hneg : Int.ofNat (toLowerByte 0) - Int.ofNat (toLowerByte c2) < 0 := by
            have : 0 < toLowerByte c2 := Nat.pos_of_ne_zero hl2
            simp [toLowerByte]
            omega
          rw [Int.sign_eq_neg_one_of_neg hneg]
          simp [compareBytes]
    · have hl1 : toLowerByte c1 ≠ 0 := fun h => h1 ((toLowerByte_eq_zero c1).mp h)
      rw [foldedPrefixBytes_cons c1 t1 h1]
      cases r with
      | nil =>
        rw [foldedPrefixBytes_nil]
        simp only [icompareLoop, List.headD]
        have hne : toLowerByte c1 ≠ toLowerByte 0 := by
          simpa [toLowerByte] using hl1
        rw [if_neg hne]
        have hpos : (0 : Int) < Int.ofNat (toLowerByte c1) - Int.ofNat (toLowerByte 0) := by
          have : 0 < toLowerByte c1 := Nat.pos_of_ne_zero hl1
          simp [toLowerByte]
          omega
        rw [Int.sign_eq_one_of_pos hpos]
        simp [compareBytes]
      | cons c2 t2 =>
        by_cases h2 : c2 = 0
        · subst h2
          rw [foldedPrefixBytes_zero]
          simp only [icompareLoop, List.headD]
          have hne : toLowerByte c1 ≠ toLowerByte 0 := by
            simpa [toLowerByte] using hl1
          rw [if_neg hne]
          have hpos : (0 : Int) < Int.ofNat (toLowerByte c1) - Int.ofNat (toLowerByte 0) := by
            have : 0 < toLowerByte c1 := Nat.pos_of_ne_zero hl1
            simp [toLowerByte]
            omega
          rw [Int.sign_eq_one_of_pos hpos]
          simp [compareBytes]
        · rw [foldedPrefixBytes_cons c2 t2 h2]
          by_cases heq : toLowerByte c1 = toLowerByte c2
          · simp only [icompareLoop, List.headD, List.tail_cons]
            rw [if_pos heq, if_neg h1, heq, compareBytes_cons_self]
            exact ih t2
          · simp only [icompareLoop, List.headD]
            rw [if_neg heq]
            rcases Nat.lt_or_ge (toLowerByte c1) (toLowerByte c2) with hlt | hge
            · have hneg : Int.ofNat (toLowerByte c1) - Int.ofNat (toLowerByte c2) < 0 := by
                simp only [Int.ofNat_eq_coe]
                omega
              rw [Int.sign_eq_neg_one_of_neg hneg]
              simp [compareBytes, hlt]
            · have hgt : toLowerByte c2 < toLowerByte c1 := by omega
              have hpos : (0 : Int) < Int.ofNat (toLowerByte c1) - Int.ofNat (toLowerByte c2) := by
                simp only [Int.ofNat_eq_coe]
                omega
              rw [Int.sign_eq_one_of_pos hpos]
              have hnlt : ¬ toLowerByte c1 < toLowerByte c2 := by omega
              simp [compareBytes, hnlt, hgt]

theorem wrap32_id (r : Int) (h1 : -(2 ^ 31) ≤ r) (h2 : r < 2 ^ 31) : wrap32 r = r := by
  simp only [wrap32]
  norm_num
  split <;> omega

theorem toLowerByte_lt (c : Nat) (h : c < 256) : toLowerByte c < 256 := by
  unfold toLowerByte; split <;> omega

theorem icompareLoop_bound (l : List Nat) :
    ∀ r, (∀ c ∈ l, c < 256) → (∀ c ∈ r, c < 256) →
      -(256 : Int) < icompareLoop l r ∧ icompareLoop l r < 256 := by
  induction l with
  | nil =>
    intro r _ hr
    have hb : toLowerByte (r.headD 0) < 256 := by
      cases r with
      | nil => simp [toLowerByte]
      | cons c t => exact toLowerByte_lt c (hr c (List.mem_cons_self c t))
    simp only [icompareLoop, Int.ofNat_eq_coe]
    omega
  | cons c1 t1 ih =>
    intro r hl hr
    have hb1 : toLowerByte c1 < 256 := toLowerByte_lt c1 (hl c1 (List.mem_cons_self c1 t1))
    have hb2 : toLowerByte (r.headD 0) < 256 := by
      cases r with
      | nil => simp [toLowerByte]
      | cons c t => exact toLowerByte_lt c (hr c (List.mem_cons_self c t))
    simp only [icompareLoop, Int.ofNat_eq_coe]
    split
    · split
      · omega
      · exact ih r.tail (fun c hc => hl c (List.mem_cons_of_mem c1 hc))
          (fun c hc => hr c ((List.tail_sublist r).subset hc))
    · omega

theorem stringCompareEval_false (l r : List Nat) :
    stringCompareEval false l r = compareBytes l r := by
  have h : stringCompareEval false l r = wrap32 (compareBytes l r) := rfl
  rw [h]
  rcases compareBytes_trichot l r with h1 | h1 | h1 <;> rw [h1] <;>
    exact wrap32_id _ (by norm_num) (by norm_num)

theorem stringCompareEval_true (l r : List Nat) (hl : ∀ c ∈ l, c < 256)
    (hr : ∀ c ∈ r, c < 256) :
    stringCompareEval true l r = icompareLoop l r := by
  have h : stringCompareEval true l r = wrap32 (icompareLoop l r) := rfl
  have hb := icompareLoop_bound l r hl hr
  rw [h]
  exact wrap32_id _ (by omega) (by omega)

/-- C5 counterexample: `icompare` on `"c"` vs `"a"` evaluates to 2, which is
none of -1, 0, 1; the claim that `icompare` returns exactly -1/0/1 is false
on the code. -/
theorem claim_C5_counterexample :
    ¬ (stringCompareEval true [99] [97] = -1 ∨ stringCompareEval true [99] [97] = 0 ∨
       stringCompareEval true [99] [97] = 1) := by
  decide

/-- C5 (amended): `compare` returns exactly -1/0/1 and is the
byte-lexicographic three-way comparison (0 exactly on equal strings, -1
exactly on lexicographically-smaller left operands); `icompare` applies the
same comparison ASCII-case-insensitively (up to the first NUL byte) only in
sign: its return value is the `tolower` difference at the first differing
position and is not clamped to -1/0/1. -/
theorem claim_C5 :
    (∀ l r : List Nat,
       stringCompareEval false l r = -1 ∨ stringCompareEval false l r = 0 ∨
       stringCompareEval false l r = 1) ∧
    (∀ l r : List Nat, stringCompareEval false l r = 0 ↔ l = r) ∧
    (∀ l r : List Nat, stringCompareEval false l r = -1 ↔ List.Lex (· < ·) l r) ∧
    (∀ l r : List Nat, (∀ c ∈ l, c < 256) → (∀ c ∈ r, c < 256) →
       Int.sign (stringCompareEval true l r) =
         stringCompareEval false (foldedPrefixBytes l) (foldedPrefixBytes r)) := by
  refine ⟨fun l r => ?_, fun l r => ?_, fun l r => ?_, fun l r hl hr => ?_⟩
  · rw [stringCompareEval_false]; exact compareBytes_trichot l r
  · rw [stringCompareEval_false]; exact compareBytes_eq_zero l r
  · rw [stringCompareEval_false]; exact compareBytes_eq_neg_one l r
  · rw [stringCompareEval_true l r hl hr, stringCompareEval_false, icompareLoop_sign]

/-- C5 witness: the amended theorem applied to the concrete strings `"B"`
and `"a"` (case-insensitively `"B" < "a"` even though bytewise
`"B" < "a"` as well; the sign comparison is evaluated concretely). -/
theorem claim_C5_witness :
    Int.sign (stringCompareEval true [66] [97]) =
      stringCompareEval false (foldedPrefixBytes [66]) (foldedPrefixBytes [97]) :=
  claim_C5.2.2.2 [66] [97] (by decide) (by decide)

theorem digitVal_none_of_lt (d : Nat) (h : d < 48) : digitVal d = none := by
  unfold digitVal
  rw [if_neg (by omega), if_neg (by omega), if_neg (by omega)]

theorem validDigit_ge (base d : Nat) (h : validDigit base d = true) : 48 ≤ d := by
  by_contra hc
  rw [validDigit, digitVal_none_of_lt d (by omega)] at h
  exact Bool.false_ne_true h

theorem validDigit_ne95 (base d : Nat) (h : validDigit base d = true) : d ≠ 95 := by
  intro he
  subst he
  rw [validDigit] at h
  simp [digitVal] at h

theorem strtolDigits_append (base c : Nat) (rest : List Nat)
    (hc : validDigit base c = false) :
    ∀ ds acc, (∀ d ∈ ds, validDigit base d = true) →
      strtolDigits base (ds ++ c :: rest) acc =
        ds.foldl (fun a d => a * base + (digitVal d).getD 0) acc := by
  intro ds
  induction ds with
  | nil =>
    intro acc _
    simp [strtolDigits, hc]
  | cons d ds ih =>
    intro acc hds
    have hd : validDigit base d = true := hds d (List.mem_cons_self d ds)
    simp only [List.cons_append, strtolDigits, hd, if_pos, List.foldl_cons]
    exact ih _ (fun x hx => hds x (List.mem_cons_of_mem d hx))

theorem strtolModel_digits (base : Nat)
    (hbase : base = 2 ∨ base = 8 ∨ base = 10 ∨ base = 16)
    (ds : List Nat) (c : Nat) (rest : List Nat) (hne : ds ≠ [])
    (hds : ∀ d ∈ ds, validDigit base d = true) (hc : validDigit base c = false)
    (hc120 : c ≠ 120) (hc88 : c ≠ 88)
    (hsmall : digitsValue base ds < 2 ^ 31) :
    strtolModel base (ds ++ c :: rest) = Int.ofNat (digitsValue base ds) := by
  obtain ⟨d0, ds', rfl⟩ : ∃ d0 ds', ds = d0 :: ds' := by
    cases ds with
    | nil => exact absurd rfl hne
    | cons a l => exact ⟨a, l, rfl⟩
  have h48 : 48 ≤ d0 := validDigit_ge base d0 (hds d0 (List.mem_cons_self d0 ds'))
  have hnospace : isSpaceByte d0 = false := by simp [isSpaceByte]; omega
  have hdrop : ((d0 :: ds') ++ c :: rest).dropWhile (fun x => isSpaceByte x) =
      (d0 :: ds') ++ c :: rest := by
    simp [List.cons_append, List.dropWhile_cons, hnospace]
  have hhead : ((d0 :: ds') ++ c :: rest).headD 0 = d0 := rfl
  simp only [strtolModel, hdrop, hhead]
  rw [if_neg (by omega : ¬ (d0 = 43 ∨ d0 = 45))]
  have hpre : ¬ (base = 16 ∧ ((d0 :: ds') ++ c :: rest).headD 0 = 48 ∧
      (((d0 :: ds') ++ c :: rest).tail.headD 0 = 120 ∨
       ((d0 :: ds') ++ c :: rest).tail.headD 0 = 88) ∧
      validDigit 16 (((d0 :: ds') ++ c :: rest).tail.tail.headD 0) = true) := by
    rintro ⟨h16, _, hx, _⟩
    cases ds' with
    | nil =>
      simp only [List.cons_append, List.nil_append, List.tail_cons, List.headD_cons] at hx
      omega
    | cons d1 ds2 =>
      have hd1 : validDigit base d1 = true :=
        hds d1 (List.mem_cons_of_mem d0 (List.mem_cons_self d1 ds2))
      simp only [List.cons_append, List.tail_cons, List.headD_cons] at hx
      subst h16
      rcases hx with h | h <;> subst h <;> simp [validDigit, digitVal] at hd1
  rw [if_neg hpre]
  rw [strtolDigits_append base c rest hc (d0 :: ds') 0 hds]
  have hv : (d0 :: ds').foldl (fun a d => a * base + (digitVal d).getD 0) 0 =
      digitsValue base (d0 :: ds') := rfl
  rw [hv]
  rw [if_neg (by omega : ¬ (2 ^ 63 - 1 < digitsValue base (d0 :: ds')))]
  rw [if_neg ?hneg]
  · simp
  case hneg =>
    simp only [decide_eq_true_eq]
    omega

/-- C6 counterexample: `atoi` on the receiver `"Hello_42"` evaluates to 0
(after underscore stripping, `strtol` stops at the leading `H` and parses
nothing), not 42 as the claim states. -/
theorem claim_C6_counterexample : ¬ (atoiEval 10 helloBytes = 42) := by decide

/-- C6 (amended): the `atoi` family first strips underscores and then
parses with `strtol` semantics in the method's radix, the first byte that
is not a valid digit of the radix terminating the parse; a receiver whose
parse stops before any digit yields 0, so `atoi` on `"Hello_42"` returns 0,
not 42. -/
theorem claim_C6 :
    atoiEval 10 helloBytes = 0 ∧
    (∀ base s, atoiEval base s = atoiEval base (s.filter (fun c => c ≠ 95))) ∧
    (∀ base ds c rest,
       (base = 2 ∨ base = 8 ∨ base = 10 ∨ base = 16) →
       ds ≠ [] →
       (∀ d ∈ ds, validDigit base d = true) →
       validDigit base c = false → c ≠ 120 → c ≠ 88 → c ≠ 95 →
       digitsValue base ds < 2 ^ 31 →
       atoiEval base (ds ++ c :: rest) = Int.ofNat (digitsValue base ds)) := by
  refine ⟨by decide, fun base s => ?_, fun base ds c rest hbase hne hds hc hc120 hc88 hc95 hsmall => ?_⟩
  · simp [atoiEval, List.filter_filter]
  · have h95ds : ds.filter (fun x => x ≠ 95) = ds :=
      List.filter_eq_self.mpr (fun d hd => by simp [validDigit_ne95 base d (hds d hd)])
    unfold atoiEval
    rw [List.filter_append, h95ds, List.filter_cons, if_pos (by simp [hc95])]
    rw [strtolModel_digits base hbase ds c (rest.filter (fun x => x ≠ 95)) hne hds hc hc120 hc88
      hsmall]
    refine wrap32_id _ ?_ ?_ <;> simp only [Int.ofNat_eq_coe] <;> omega

/-- C6 witness: `atoi` on `"42z0"` parses 42 and stops at `z`. -/
theorem claim_C6_witness : atoiEval 10 [52, 50, 122, 48] = Int.ofNat (digitsValue 10 [52, 50]) :=
  claim_C6.2.2 10 [52, 50] 122 [48] (by decide) (by decide) (by decide) (by decide) (by decide)
    (by decide) (by decide) (by decide)

/-! ## Lemmas: DiagnosticVisitor -/

theorem countInfRec_append (l1 l2 : List EDiag) :
    countInfRec (l1 ++ l2) = countInfRec l1 + countInfRec l2 :=
  List.countP_append _ _ _

theorem countInfRec_map_other (ds : List Nat) : countInfRec (ds.map EDiag.other) = 0 := by
  induction ds with
  | nil => rfl
  | cons d ds ih => simpa [countInfRec, List.countP_cons, isInfRec] using ih

theorem countEntered_append (l1 l2 : List EEvent) (d : Nat) :
    countEntered (l1 ++ l2) d = countEntered l1 d + countEntered l2 d :=
  List.count_append _ _ _

theorem countEntered_entered (defId d : Nat) :
    countEntered [EEvent.entered defId] d = if d = defId then 1 else 0 := by
  by_cases h : d = defId
  · subst h; simp [countEntered]
  · have h2 : ¬ defId = d := fun e => h e.symm
    simp [countEntered, List.count_cons, h, h2]

theorem countEntered_forcedSym (i d : Nat) : countEntered [EEvent.forcedSym i] d = 0 := by
  simp [countEntered]

theorem countEntered_forcedAttrs (i d : Nat) : countEntered [EEvent.forcedAttrs i] d = 0 := by
  simp [countEntered]

theorem countEntered_forcedPorts (i d : Nat) : countEntered [EEvent.forcedPorts i] d = 0 := by
  simp [countEntered]

theorem countEntered_enteredOK (i d : Nat) : countEntered [EEvent.enteredOK i] d = 0 := by
  simp [countEntered]

theorem shortCircuit_false_flag {cfg : EConfig} {s : EState}
    (h : shortCircuit cfg s = false) : s.hierarchyProblem = false := by
  simp [shortCircuit] at h
  exact h.2

theorem visitE_main (D : EDesign) (cfg : EConfig) :
    ∀ fuel j s st, visitE D cfg fuel j s = some st →
      st.activeBodies = s.activeBodies ∧
      (∃ t, st.diags = s.diags ++ t) ∧
      (shortCircuit cfg s = true → st = s) ∧
      (recDiagInv s → recDiagInv st) ∧
      (instCountInv s → instCountInv st) := by
  intro fuel
  induction fuel with
  | zero => intro j s st h; simp [visitE] at h
  | succ fuel ih =>
    intro j s st h
    match j with
    | EJob.seq [] =>
      simp only [visitE, Option.some.injEq] at h
      subst h
      exact ⟨rfl, ⟨[], by simp⟩, fun _ => rfl, fun hi => hi, fun hi => hi⟩
    | EJob.seq (m :: ms) =>
      simp only [visitE] at h
      cases h1 : visitE D cfg fuel (EJob.mem m) s with
      | none => rw [h1] at h; exact absurd h (by simp)
      | some s1 =>
        rw [h1] at h
        obtain ⟨hab1, ⟨t1, ht1⟩, hsc1, hinv1, hcnt1⟩ := ih (EJob.mem m) s s1 h1
        obtain ⟨hab2, ⟨t2, ht2⟩, hsc2, hinv2, hcnt2⟩ := ih (EJob.seq ms) s1 st h
        refine ⟨hab2.trans hab1, ⟨t1 ++ t2, by rw [ht2, ht1, List.append_assoc]⟩, ?_,
          fun hi => hinv2 (hinv1 hi), fun hi => hcnt2 (hcnt1 hi)⟩
        intro hsc
        have e1 : s1 = s := hsc1 hsc
        subst e1
        exact hsc2 hsc
    | EJob.body ms =>
      simp only [visitE] at h
      by_cases hsc : shortCircuit cfg s = true
      · rw [if_pos hsc] at h
        cases h
        exact ⟨rfl, ⟨[], by simp⟩, fun _ => rfl, fun hi => hi, fun hi => hi⟩
      · rw [if_neg hsc] at h
        obtain ⟨hab, hd, _, hinv, hcnt⟩ := ih (EJob.seq ms) s st h
        exact ⟨hab, hd, fun hc => absurd hc hsc, hinv, hcnt⟩
    | EJob.mem (EMember.plain sid ds) =>
      simp only [visitE] at h
      by_cases hsc : shortCircuit cfg s = true
      · rw [if_pos hsc] at h
        cases h
        exact ⟨rfl, ⟨[], by simp⟩, fun _ => rfl, fun hi => hi, fun hi => hi⟩
      · rw [if_neg hsc] at h
        cases h
        have hflag : s.hierarchyProblem = false :=
          shortCircuit_false_flag (by simpa using hsc)
        refine ⟨rfl, ⟨ds.map EDiag.other, rfl⟩, fun hc => absurd hc hsc, ?_, ?_⟩
        · rintro ⟨i1, i2, i3⟩
          have hz : countInfRec s.diags = 0 := i1 hflag
          refine ⟨fun _ => ?_, ?_, fun hge => ?_⟩
          · show countInfRec (s.diags ++ ds.map EDiag.other) = 0
            rw [countInfRec_append, hz, countInfRec_map_other]
          · show countInfRec (s.diags ++ ds.map EDiag.other) ≤ 1
            rw [countInfRec_append, hz, countInfRec_map_other]
            omega
          · exfalso
            rw [show countInfRec (s.diags ++ ds.map EDiag.other) =
                0 from by rw [countInfRec_append, hz, countInfRec_map_other]] at hge
            omega
        · intro hc d
          show s.instanceCount d = countEntered (s.log ++ [EEvent.forcedSym sid]) d
          rw [countEntered_append, countEntered_forcedSym, hc d]
          omega
    | EJob.mem (EMember.inst sid defId bodyId aDs pDs) =>
      simp only [visitE] at h
      by_cases hsc : shortCircuit cfg s = true
      · rw [if_pos hsc] at h
        cases h
        exact ⟨rfl, ⟨[], by simp⟩, fun _ => rfl, fun hi => hi, fun hi => hi⟩
      · rw [if_neg hsc] at h
        have hflag : s.hierarchyProblem = false :=
          shortCircuit_false_flag (by simpa using hsc)
        by_cases hmem : bodyId ∈ s.activeBodies
        · rw [if_pos hmem] at h
          cases h
          refine ⟨rfl, ⟨aDs.map EDiag.other ++ pDs.map EDiag.other ++ [EDiag.infRec sid],
            by simp [List.append_assoc]⟩, fun hc => absurd hc hsc, ?_, ?_⟩
          · rintro ⟨i1, i2, i3⟩
            have hz : countInfRec s.diags = 0 := i1 hflag
            have hcount : countInfRec
                (s.diags ++ aDs.map EDiag.other ++ pDs.map EDiag.other ++ [EDiag.infRec sid]) =
                1 := by
              rw [countInfRec_append, countInfRec_append, countInfRec_append, hz,
                countInfRec_map_other, countInfRec_map_other]
              rfl
            refine ⟨fun hcontra => by simp at hcontra, by rw [hcount], fun _ => ⟨rfl, sid, ?_⟩⟩
            exact List.getLast?_concat _
          · intro hc d
            show (if d = defId then s.instanceCount d + 1 else s.instanceCount d) =
              countEntered (s.log ++ [EEvent.entered defId] ++ [EEvent.forcedAttrs sid] ++
                [EEvent.forcedPorts sid]) d
            rw [countEntered_append, countEntered_append, countEntered_append,
              countEntered_entered, countEntered_forcedAttrs, countEntered_forcedPorts, hc d]
            by_cases hd : d = defId <;> simp [hd]
        · rw [if_neg hmem] at h
          by_cases hdep : cfg.maxInstanceDepth < (bodyId :: s.activeBodies).length
          · rw [if_pos hdep] at h
            cases h
            refine ⟨?_, ⟨aDs.map EDiag.other ++ pDs.map EDiag.other ++ [EDiag.maxDepth sid],
              by simp [List.append_assoc]⟩, fun hc => absurd hc hsc, ?_, ?_⟩
            · show (bodyId :: s.activeBodies).erase bodyId = s.activeBodies
              exact List.erase_cons_head bodyId s.activeBodies
            · rintro ⟨i1, i2, i3⟩
              have hz : countInfRec s.diags = 0 := i1 hflag
              have hcount : countInfRec
                  (s.diags ++ aDs.map EDiag.other ++ pDs.map EDiag.other ++
                    [EDiag.maxDepth sid]) = 0 := by
                rw [countInfRec_append, countInfRec_append, countInfRec_append, hz,
                  countInfRec_map_other, countInfRec_map_other]
                rfl
              refine ⟨fun _ => by rw [hcount], by rw [hcount]; omega, fun hge => ?_⟩
              rw [hcount] at hge
              omega
            · intro hc d
              show (if d = defId then s.instanceCount d + 1 else s.instanceCount d) =
                countEntered (s.log ++ [EEvent.entered defId] ++ [EEvent.forcedAttrs sid] ++
                  [EEvent.forcedPorts sid]) d
              rw [countEntered_append, countEntered_append, countEntered_append,
                countEntered_entered, countEntered_forcedAttrs, countEntered_forcedPorts, hc d]
              by_cases hd : d = defId <;> simp [hd]
          · rw [if_neg hdep] at h
            cases h1 : visitE D cfg fuel
                (EJob.body (D.bodies bodyId))
                { s with
                  instanceCount := fun d =>
                    if d = defId then s.instanceCount d + 1 else s.instanceCount d,
                  log := s.log ++ [EEvent.entered defId] ++ [EEvent.forcedAttrs sid] ++
                    [EEvent.forcedPorts sid] ++ [EEvent.enteredOK defId],
                  diags := s.diags ++ aDs.map EDiag.other ++ pDs.map EDiag.other,
                  activeBodies := bodyId :: s.activeBodies } with
            | none =>
              rw [h1] at h
              exact absurd h (by simp)
            | some st0 =>
              rw [h1] at h
              cases h
              obtain ⟨hab0, ⟨t0, ht0⟩, _, hinv0, hcnt0⟩ := ih _ _ _ h1
              refine ⟨?_, ⟨aDs.map EDiag.other ++ pDs.map EDiag.other ++ t0, ?_⟩,
                fun hc => absurd hc hsc, ?_, ?_⟩
              · show st0.activeBodies.erase bodyId = s.activeBodies
                rw [hab0]
                exact List.erase_cons_head bodyId s.activeBodies
              · show st0.diags = s.diags ++ (aDs.map EDiag.other ++ pDs.map EDiag.other ++ t0)
                rw [ht0]
                simp [List.append_assoc]
              · rintro ⟨i1, i2, i3⟩
                have hz : countInfRec s.diags = 0 := i1 hflag
                have hpre : recDiagInv
                    { s with
                      instanceCount := fun d =>
                        if d = defId then s.instanceCount d + 1 else s.instanceCount d,
                      log := s.log ++ [EEvent.entered defId] ++ [EEvent.forcedAttrs sid] ++
                        [EEvent.forcedPorts sid] ++ [EEvent.enteredOK defId],
                      diags := s.diags ++ aDs.map EDiag.other ++ pDs.map EDiag.other,
                      activeBodies := bodyId :: s.activeBodies } := by
                  have hcnt2 : countInfRec
                      (s.diags ++ aDs.map EDiag.other ++ pDs.map EDiag.other) = 0 := by
                    rw [countInfRec_append, countInfRec_append, hz, countInfRec_map_other,
                      countInfRec_map_other]
                  exact ⟨fun _ => hcnt2, by rw [hcnt2]; omega, fun hge => by
                    rw [hcnt2] at hge; omega⟩
                have hst0 := hinv0 hpre
                exact ⟨hst0.1, hst0.2.1, hst0.2.2⟩
              · intro hc
                have hpre : instCountInv
                    { s with
                      instanceCount := fun d =>
                        if d = defId then s.instanceCount d + 1 else s.instanceCount d,
                      log := s.log ++ [EEvent.entered defId] ++ [EEvent.forcedAttrs sid] ++
                        [EEvent.forcedPorts sid] ++ [EEvent.enteredOK defId],
                      diags := s.diags ++ aDs.map EDiag.other ++ pDs.map EDiag.other,
                      activeBodies := bodyId :: s.activeBodies } := by
                  intro d
                  show (if d = defId then s.instanceCount d + 1 else s.instanceCount d) =
                    countEntered (s.log ++ [EEvent.entered defId] ++ [EEvent.forcedAttrs sid] ++
                      [EEvent.forcedPorts sid] ++ [EEvent.enteredOK defId]) d
                  rw [countEntered_append, countEntered_append, countEntered_append,
                    countEntered_append, countEntered_entered, countEntered_forcedAttrs,
                    countEntered_forcedPorts, countEntered_enteredOK, hc d]
                  by_cases hd : d = defId <;> simp [hd]
                exact hcnt0 hpre

theorem visitE_short_mem (D : EDesign) (cfg : EConfig) (fuel : Nat) (m : EMember) (s : EState)
    (h : shortCircuit cfg s = true) :
    visitE D cfg (fuel + 1) (EJob.mem m) s = some s := by
  cases m <;> simp [visitE, h]

theorem visitE_short_body (D : EDesign) (cfg : EConfig) (fuel : Nat) (ms : List EMember)
    (s : EState) (h : shortCircuit cfg s = true) :
    visitE D cfg (fuel + 1) (EJob.body ms) s = some s := by
  simp [visitE, h]

/-- C1: (a) in any elaboration run from a clean initial state, at most one
`InfinitelyRecursiveHierarchy` diagnostic is emitted; if one is emitted,
the hierarchy-problem flag is set and that diagnostic is the last one of
the traversal — no diagnostics are produced from deeper nodes or later
siblings.  (b) The diagnostic really is emitted at every self-recursion
point: an instance handler entered (past the short-circuit check) while
its body is already in the active-bodies set appends exactly one
`InfinitelyRecursiveHierarchy` diagnostic and sets the flag.  (c) On the
spec's end-to-end scenario — a definition that instantiates itself
unconditionally — elaborating a root instance emits exactly one
`InfinitelyRecursiveHierarchy`, it is the last diagnostic, and the flag is
set. -/
theorem claim_C1 :
    (∀ (D : EDesign) (cfg : EConfig) (fuel : Nat) (j : EJob) (st : EState),
       visitE D cfg fuel j initEState = some st →
       countInfRec st.diags ≤ 1 ∧
       (1 ≤ countInfRec st.diags →
         st.hierarchyProblem = true ∧ ∃ i, st.diags.getLast? = some (EDiag.infRec i))) ∧
    (∀ (D : EDesign) (cfg : EConfig) (fuel : Nat) (s : EState)
       (sid defId bodyId : Nat) (aDs pDs : List Nat),
       shortCircuit cfg s = false → bodyId ∈ s.activeBodies →
       ∃ st, visitE D cfg (fuel + 1) (EJob.mem (EMember.inst sid defId bodyId aDs pDs)) s =
           some st ∧
         st.diags = s.diags ++ aDs.map EDiag.other ++ pDs.map EDiag.other ++
           [EDiag.infRec sid] ∧
         countInfRec st.diags = countInfRec s.diags + 1 ∧
         st.hierarchyProblem = true) ∧
    (countInfRec recState.diags = 1 ∧ recState.hierarchyProblem = true ∧
     recState.diags.getLast? = some (EDiag.infRec 1)) := by
  refine ⟨?_, ?_, by decide⟩
  · intro D cfg fuel j st h
    have h0 : recDiagInv initEState :=
      ⟨fun _ => rfl, by simp [countInfRec, initEState], fun hge => by
        simp [countInfRec, initEState] at hge⟩
    obtain ⟨_, _, _, hinv, _⟩ := visitE_main D cfg fuel j initEState st h
    exact ⟨(hinv h0).2.1, (hinv h0).2.2⟩
  · intro D cfg fuel s sid defId bodyId aDs pDs hsc hmem
    have hsc2 : ¬ shortCircuit cfg s = true := by simp [hsc]
    refine ⟨{ s with
        instanceCount := fun d => if d = defId then s.instanceCount d + 1 else s.instanceCount d,
        log := s.log ++ [EEvent.entered defId] ++ [EEvent.forcedAttrs sid] ++
          [EEvent.forcedPorts sid],
        diags := s.diags ++ aDs.map EDiag.other ++ pDs.map EDiag.other ++ [EDiag.infRec sid],
        hierarchyProblem := true }, ?_, rfl, ?_, rfl⟩
    · simp only [visitE]
      rw [if_neg hsc2, if_pos hmem]
    · show countInfRec
        (s.diags ++ aDs.map EDiag.other ++ pDs.map EDiag.other ++ [EDiag.infRec sid]) =
        countInfRec s.diags + 1
      rw [countInfRec_append, countInfRec_append, countInfRec_append, countInfRec_map_other,
        countInfRec_map_other]
      have h1 : countInfRec [EDiag.infRec sid] = 1 := rfl
      rw [h1]

/-- C1 witness: part (a) applied to the complete elaboration of the
self-instantiating design, and part (b) applied to an instance entered
while its body (id 0) is already active — the entry emits the recursion
diagnostic and sets the flag. -/
theorem claim_C1_witness :
    (countInfRec recState.diags ≤ 1 ∧
     (1 ≤ countInfRec recState.diags →
       recState.hierarchyProblem = true ∧
       ∃ i, recState.diags.getLast? = some (EDiag.infRec i))) ∧
    (∃ st, visitE recDesign recConfig 5 (EJob.mem (EMember.inst 9 0 0 [] []))
         activeBodyState = some st ∧
       st.diags = activeBodyState.diags ++ [].map EDiag.other ++ [].map EDiag.other ++
         [EDiag.infRec 9] ∧
       countInfRec st.diags = countInfRec activeBodyState.diags + 1 ∧
       st.hierarchyProblem = true) :=
  ⟨claim_C1.1 recDesign recConfig 10 recJob recState rfl,
   claim_C1.2.1 recDesign recConfig 4 activeBodyState 9 0 0 [] [] (by decide) (by decide)⟩

/-- C2: once the hierarchy-problem flag is set or the error count exceeds
the limit, every handler returns immediately with the state unchanged (no
lazy attribute forced, no diagnostic produced); and both conditions are
sticky along any traversal — the diagnostic sink only grows (so `numErrors`
never decreases) and the flag is never reset. -/
theorem claim_C2 :
    (∀ (D : EDesign) (cfg : EConfig) (fuel : Nat) (m : EMember) (s : EState),
       shortCircuit cfg s = true → visitE D cfg (fuel + 1) (EJob.mem m) s = some s) ∧
    (∀ (D : EDesign) (cfg : EConfig) (fuel : Nat) (ms : List EMember) (s : EState),
       shortCircuit cfg s = true → visitE D cfg (fuel + 1) (EJob.body ms) s = some s) ∧
    (∀ (D : EDesign) (cfg : EConfig) (fuel : Nat) (j : EJob) (s st : EState),
       visitE D cfg fuel j s = some st →
       (∃ t, st.diags = s.diags ++ t) ∧
       (s.hierarchyProblem = true → st.hierarchyProblem = true)) := by
  refine ⟨visitE_short_mem, visitE_short_body, fun D cfg fuel j s st h => ?_⟩
  obtain ⟨_, hd, hshort, _, _⟩ := visitE_main D cfg fuel j s st h
  refine ⟨hd, fun hflag => ?_⟩
  have : shortCircuit cfg s = true := by simp [shortCircuit, hflag]
  rw [hshort this]
  exact hflag

/-- C2 witness: a handler invoked in a flagged state returns it unchanged,
and a complete run only appends to the diagnostic sink. -/
theorem claim_C2_witness :
    visitE recDesign recConfig 1 (EJob.mem (EMember.plain 0 [])) flaggedState =
      some flaggedState ∧
    (∃ t, recState.diags = initEState.diags ++ t) :=
  ⟨claim_C2.1 recDesign recConfig 0 (EMember.plain 0 []) flaggedState (by decide),
   (claim_C2.2.2 recDesign recConfig 10 recJob initEState recState rfl).1⟩

/-- C3 counterexample: elaborating the self-instantiating definition gives
`instanceCount[def] = 2` although only one entry was successful (the second
entry was rejected for infinite recursion after the count was already
incremented), refuting the claim that the count equals the number of
successful entries. -/
theorem claim_C3_counterexample :
    recState.instanceCount 0 = 2 ∧ countEnteredOK recState.log 0 = 1 ∧
    ¬ (recState.instanceCount 0 = countEnteredOK recState.log 0) := by
  decide

/-- C3 (amended): after the traversal, `instanceCount[def]` equals the
number of instance-handler entries for that definition that passed the
error/hierarchy short-circuit check — including entries subsequently
rejected for infinite recursion or for exceeding the maximum instance
depth. -/
theorem claim_C3 (D : EDesign) (cfg : EConfig) (fuel : Nat) (j : EJob) (st : EState)
    (h : visitE D cfg fuel j initEState = some st) :
    ∀ d, st.instanceCount d = countEntered st.log d := by
  have h0 : instCountInv initEState := fun d => rfl
  obtain ⟨_, _, _, _, hcnt⟩ := visitE_main D cfg fuel j initEState st h
  exact hcnt h0

/-- C3 witness: the amended count law evaluated on the recursive design. -/
theorem claim_C3_witness : recState.instanceCount 0 = countEntered recState.log 0 :=
  claim_C3 recDesign recConfig 10 recJob recState rfl 0

/-- C4: the active-instance-bodies set is restored on every exit path of
the instance handler (and hence of every traversal): after any visit
returns, the set equals its contents on entry. -/
theorem claim_C4 (D : EDesign) (cfg : EConfig) (fuel : Nat) (j : EJob) (s st : EState)
    (h : visitE D cfg fuel j s = some st) :
    st.activeBodies = s.activeBodies :=
  (visitE_main D cfg fuel j s st h).1

/-- C4 witness: the recursive-design run, which exercises the normal exit,
the recursion-detection exit and the short-circuit exit, leaves the active
set as it found it. -/
theorem claim_C4_witness : recState.activeBodies = initEState.activeBodies :=
  claim_C4 recDesign recConfig 10 recJob initEState recState rfl

/-- C10: an instance entry that is rejected (body already active, or depth
cap exceeded) is not rejected atomically: the per-definition instance count
has already been incremented and the attribute and port-connection
expressions have already been forced — their diagnostics precede the
rejection diagnostic in the sink. -/
theorem claim_C10 (D : EDesign) (cfg : EConfig) (fuel : Nat) (s : EState)
    (sid defId bodyId : Nat) (aDs pDs : List Nat)
    (hsc : shortCircuit cfg s = false)
    (hrej : bodyId ∈ s.activeBodies ∨ cfg.maxInstanceDepth < s.activeBodies.length + 1) :
    ∃ st, visitE D cfg (fuel + 1) (EJob.mem (EMember.inst sid defId bodyId aDs pDs)) s =
        some st ∧
      st.instanceCount defId = s.instanceCount defId + 1 ∧
      EEvent.forcedAttrs sid ∈ st.log ∧ EEvent.forcedPorts sid ∈ st.log ∧
      st.hierarchyProblem = true ∧
      ((bodyId ∈ s.activeBodies ∧
         st.diags = s.diags ++ aDs.map EDiag.other ++ pDs.map EDiag.other ++
           [EDiag.infRec sid]) ∨
       (bodyId ∉ s.activeBodies ∧
         st.diags = s.diags ++ aDs.map EDiag.other ++ pDs.map EDiag.other ++
           [EDiag.maxDepth sid])) := by
  have hsc2 : ¬ shortCircuit cfg s = true := by simp [hsc]
  by_cases hmem : bodyId ∈ s.activeBodies
  · refine ⟨{ s with
        instanceCount := fun d => if d = defId then s.instanceCount d + 1 else s.instanceCount d,
        log := s.log ++ [EEvent.entered defId] ++ [EEvent.forcedAttrs sid] ++
          [EEvent.forcedPorts sid],
        diags := s.diags ++ aDs.map EDiag.other ++ pDs.map EDiag.other ++ [EDiag.infRec sid],
        hierarchyProblem := true }, ?_, by simp, by simp, by simp, rfl, Or.inl ⟨hmem, rfl⟩⟩
    simp only [visitE]
    rw [if_neg hsc2, if_pos hmem]
  · have hdep : cfg.maxInstanceDepth < (bodyId :: s.activeBodies).length := by
      rcases hrej with h | h
      · exact absurd h hmem
      · simpa using h
    refine ⟨{ s with
        instanceCount := fun d => if d = defId then s.instanceCount d + 1 else s.instanceCount d,
        log := s.log ++ [EEvent.entered defId] ++ [EEvent.forcedAttrs sid] ++
          [EEvent.forcedPorts sid],
        diags := s.diags ++ aDs.map EDiag.other ++ pDs.map EDiag.other ++ [EDiag.maxDepth sid],
        hierarchyProblem := true,
        activeBodies := (bodyId :: s.activeBodies).erase bodyId },
      ?_, by simp, by simp, by simp, rfl, Or.inr ⟨hmem, rfl⟩⟩
    simp only [visitE]
    rw [if_neg hsc2, if_neg hmem, if_pos hdep]

/-- C10 witness: an instance entered while its body is already active (with
nonempty attribute and port diagnostics) still increments the count and
still emits those diagnostics before the rejection. -/
theorem claim_C10_witness :
    ∃ st, visitE recDesign recConfig 5 (EJob.mem (EMember.inst 3 0 0 [7] [8]))
        activeBodyState = some st ∧
      st.instanceCount 0 = activeBodyState.instanceCount 0 + 1 ∧
      EEvent.forcedAttrs 3 ∈ st.log ∧ EEvent.forcedPorts 3 ∈ st.log ∧
      st.hierarchyProblem = true ∧
      ((0 ∈ activeBodyState.activeBodies ∧
         st.diags = activeBodyState.diags ++ [7].map EDiag.other ++ [8].map EDiag.other ++
           [EDiag.infRec 3]) ∨
       (0 ∉ activeBodyState.activeBodies ∧
         st.diags = activeBodyState.diags ++ [7].map EDiag.other ++ [8].map EDiag.other ++
           [EDiag.maxDepth 3])) :=
  claim_C10 recDesign recConfig 4 activeBodyState 3 0 0 [7] [8] (by decide)
    (Or.inl (by decide))

/-! ## Lemmas: DefParamVisitor -/

theorem dpCollected_append (lvl : Nat) (l1 l2 : List DPEvent) :
    dpCollected lvl (l1 ++ l2) = dpCollected lvl l1 ++ dpCollected lvl l2 :=
  List.filterMap_append _ _ _

theorem dpCollected_dpSeen (lvl i d : Nat) :
    dpCollected lvl [DPEvent.dpSeen i d] = if d ≤ lvl then [i] else [] := by
  by_cases h : d ≤ lvl <;> simp [dpCollected, h]

theorem dpCollected_instSeen (lvl i d : Nat) :
    dpCollected lvl [DPEvent.instSeen i d] = [] := by
  simp [dpCollected]

theorem dpCollected_genSeen (lvl d : Nat) (b : Bool) :
    dpCollected lvl [DPEvent.genSeen d b] = [] := by
  simp [dpCollected]

theorem dpCollected_genDescend (lvl d : Nat) (b : Bool) :
    dpCollected lvl [DPEvent.genDescend d b] = [] := by
  simp [dpCollected]

theorem countInstSeenLE_append (lvl : Nat) (l1 l2 : List DPEvent) :
    countInstSeenLE lvl (l1 ++ l2) = countInstSeenLE lvl l1 + countInstSeenLE lvl l2 :=
  List.countP_append _ _ _

theorem countGenSeenLT_append (lvl : Nat) (l1 l2 : List DPEvent) :
    countGenSeenLT lvl (l1 ++ l2) = countGenSeenLT lvl l1 + countGenSeenLT lvl l2 :=
  List.countP_append _ _ _

theorem countInstSeenLE_single_inst (lvl i d : Nat) :
    countInstSeenLE lvl [DPEvent.instSeen i d] = if d ≤ lvl then 1 else 0 := by
  by_cases h : d ≤ lvl <;> simp [countInstSeenLE, List.countP_cons, h]

theorem countInstSeenLE_single_dp (lvl i d : Nat) :
    countInstSeenLE lvl [DPEvent.dpSeen i d] = 0 := by
  simp [countInstSeenLE, List.countP_cons]

theorem countInstSeenLE_single_gen (lvl d : Nat) (b : Bool) :
    countInstSeenLE lvl [DPEvent.genSeen d b] = 0 := by
  simp [countInstSeenLE, List.countP_cons]

theorem countInstSeenLE_single_genD (lvl d : Nat) (b : Bool) :
    countInstSeenLE lvl [DPEvent.genDescend d b] = 0 := by
  simp [countInstSeenLE, List.countP_cons]

theorem countGenSeenLT_single_gen (lvl d : Nat) (b : Bool) :
    countGenSeenLT lvl [DPEvent.genSeen d b] = if d < lvl then 1 else 0 := by
  by_cases h : d < lvl <;> simp [countGenSeenLT, List.countP_cons, h]

theorem countGenSeenLT_single_dp (lvl i d : Nat) :
    countGenSeenLT lvl [DPEvent.dpSeen i d] = 0 := by
  simp [countGenSeenLT, List.countP_cons]

theorem countGenSeenLT_single_inst (lvl i d : Nat) :
    countGenSeenLT lvl [DPEvent.instSeen i d] = 0 := by
  simp [countGenSeenLT, List.countP_cons]

theorem countGenSeenLT_single_genD (lvl d : Nat) (b : Bool) :
    countGenSeenLT lvl [DPEvent.genDescend d b] = 0 := by
  simp [countGenSeenLT, List.countP_cons]

theorem dpDescendGood_append (lvl : Nat) (l1 l2 : List DPEvent)
    (h1 : dpDescendGood lvl l1) (h2 : dpDescendGood lvl l2) :
    dpDescendGood lvl (l1 ++ l2) := by
  intro d b hm
  rcases List.mem_append.mp hm with hm | hm
  · exact h1 d b hm
  · exact h2 d b hm

theorem dpDescendGood_dpSeen (lvl i d : Nat) :
    dpDescendGood lvl [DPEvent.dpSeen i d] := by
  intro d2 b2 hm
  simp at hm

theorem dpDescendGood_instSeen (lvl i d : Nat) :
    dpDescendGood lvl [DPEvent.instSeen i d] := by
  intro d2 b2 hm
  simp at hm

theorem dpDescendGood_genSeen (lvl d : Nat) (b : Bool) :
    dpDescendGood lvl [DPEvent.genSeen d b] := by
  intro d2 b2 hm
  simp at hm

theorem dpDescendGood_genDescend (lvl d : Nat) (b : Bool) (h : d < lvl ∨ b = true) :
    dpDescendGood lvl [DPEvent.genDescend d b] := by
  intro d2 b2 hm
  simp at hm
  obtain ⟨rfl, rfl⟩ := hm
  exact h

theorem visitG_main (D : DPDesign) (cfg : DPConfig) :
    ∀ fuel j s st, visitG D cfg fuel j s = some st →
      (dpFoundInv cfg.generateLevel s → dpFoundInv cfg.generateLevel st) ∧
      (dpBlocksInv cfg.generateLevel s → dpBlocksInv cfg.generateLevel st) ∧
      (dpDescendGood cfg.generateLevel s.log → dpDescendGood cfg.generateLevel st.log) := by
  intro fuel
  induction fuel with
  | zero => intro j s st h; simp [visitG] at h
  | succ fuel ih =>
    intro j s st h
    match j with
    | GJob.seq [] =>
      simp only [visitG, Option.some.injEq] at h
      subst h
      exact ⟨fun hi => hi, fun hi => hi, fun hi => hi⟩
    | GJob.seq (m :: ms) =>
      simp only [visitG] at h
      cases h1 : visitG D cfg fuel (GJob.one m) s with
      | none => rw [h1] at h; exact absurd h (by simp)
      | some s1 =>
        rw [h1] at h
        obtain ⟨hf1, hb1, hg1⟩ := ih (GJob.one m) s s1 h1
        obtain ⟨hf2, hb2, hg2⟩ := ih (GJob.seq ms) s1 st h
        exact ⟨fun hi => hf2 (hf1 hi), fun hi => hb2 (hb1 hi), fun hi => hg2 (hg1 hi)⟩
    | GJob.seqChk [] =>
      simp only [visitG, Option.some.injEq] at h
      subst h
      exact ⟨fun hi => hi, fun hi => hi, fun hi => hi⟩
    | GJob.seqChk (m :: ms) =>
      simp only [visitG] at h
      by_cases hp : s.hierarchyProblem.isSome = true
      · rw [if_pos hp] at h
        cases h
        exact ⟨fun hi => hi, fun hi => hi, fun hi => hi⟩
      · rw [if_neg hp] at h
        cases h1 : visitG D cfg fuel (GJob.one m) s with
        | none => rw [h1] at h; exact absurd h (by simp)
        | some s1 =>
          rw [h1] at h
          obtain ⟨hf1, hb1, hg1⟩ := ih (GJob.one m) s s1 h1
          obtain ⟨hf2, hb2, hg2⟩ := ih (GJob.seqChk ms) s1 st h
          exact ⟨fun hi => hf2 (hf1 hi), fun hi => hb2 (hb1 hi), fun hi => hg2 (hg1 hi)⟩
    | GJob.one (GSym.dp i) =>
      simp only [visitG] at h
      by_cases hle : s.generateDepth ≤ cfg.generateLevel
      · rw [if_pos hle] at h
        cases h
        refine ⟨?_, ?_, ?_⟩
        · intro hi
          show s.found ++ [i] =
            dpCollected cfg.generateLevel (s.log ++ [DPEvent.dpSeen i s.generateDepth])
          rw [dpCollected_append, dpCollected_dpSeen, if_pos hle, hi]
        · intro hi
          show s.numBlocksSeen =
            countInstSeenLE cfg.generateLevel (s.log ++ [DPEvent.dpSeen i s.generateDepth]) +
            countGenSeenLT cfg.generateLevel (s.log ++ [DPEvent.dpSeen i s.generateDepth])
          rw [countInstSeenLE_append, countGenSeenLT_append, countInstSeenLE_single_dp,
            countGenSeenLT_single_dp, hi]
          omega
        · intro hi
          exact dpDescendGood_append _ _ _ hi (dpDescendGood_dpSeen _ _ _)
      · rw [if_neg hle] at h
        cases h
        refine ⟨?_, ?_, ?_⟩
        · intro hi
          show s.found =
            dpCollected cfg.generateLevel (s.log ++ [DPEvent.dpSeen i s.generateDepth])
          rw [dpCollected_append, dpCollected_dpSeen, if_neg hle, hi]
          simp
        · intro hi
          show s.numBlocksSeen =
            countInstSeenLE cfg.generateLevel (s.log ++ [DPEvent.dpSeen i s.generateDepth]) +
            countGenSeenLT cfg.generateLevel (s.log ++ [DPEvent.dpSeen i s.generateDepth])
          rw [countInstSeenLE_append, countGenSeenLT_append, countInstSeenLE_single_dp,
            countGenSeenLT_single_dp, hi]
          omega
        · intro hi
          exact dpDescendGood_append _ _ _ hi (dpDescendGood_dpSeen _ _ _)
    | GJob.one GSym.leaf =>
      simp only [visitG, Option.some.injEq] at h
      subst h
      exact ⟨fun hi => hi, fun hi => hi, fun hi => hi⟩
    | GJob.one (GSym.genArr ms) =>
      simp only [visitG] at h
      exact ih (GJob.seqChk ms) s st h
    | GJob.one (GSym.inst i defId) =>
      simp only [visitG] at h
      by_cases hp : s.hierarchyProblem.isSome = true
      · rw [if_pos hp] at h
        cases h
        exact ⟨fun hi => hi, fun hi => hi, fun hi => hi⟩
      · rw [if_neg hp] at h
        by_cases hdep : cfg.maxInstanceDepth < s.instanceDepth
        · rw [if_pos hdep] at h
          cases h
          exact ⟨fun hi => hi, fun hi => hi, fun hi => hi⟩
        · rw [if_neg hdep] at h
          by_cases hin : s.inRecursiveInstance = true
          · rw [if_pos hin] at h
            dsimp only at h
            by_cases hle : s.generateDepth ≤ cfg.generateLevel
            · rw [if_pos hle] at h
              split at h
              · exact absurd h (by simp)
              · rename_i st0 heq
                cases h
                obtain ⟨hf0, hb0, hg0⟩ := ih (GJob.seq (D.gbodies defId)) _ st0 heq
                refine ⟨?_, ?_, ?_⟩
                · intro hi
                  refine hf0 ?_
                  show s.found = dpCollected cfg.generateLevel
                    (s.log ++ [DPEvent.instSeen defId s.generateDepth])
                  rw [dpCollected_append, dpCollected_instSeen, hi]
                  simp
                · intro hi
                  refine hb0 ?_
                  show s.numBlocksSeen + 1 =
                    countInstSeenLE cfg.generateLevel
                      (s.log ++ [DPEvent.instSeen defId s.generateDepth]) +
                    countGenSeenLT cfg.generateLevel
                      (s.log ++ [DPEvent.instSeen defId s.generateDepth])
                  rw [countInstSeenLE_append, countGenSeenLT_append, countInstSeenLE_single_inst,
                    countGenSeenLT_single_inst, if_pos hle, hi]
                  omega
                · intro hi
                  refine hg0 ?_
                  exact dpDescendGood_append _ _ _ hi (dpDescendGood_instSeen _ _ _)
            · rw [if_neg hle] at h
              split at h
              · exact absurd h (by simp)
              · rename_i st0 heq
                cases h
                obtain ⟨hf0, hb0, hg0⟩ := ih (GJob.seq (D.gbodies defId)) _ st0 heq
                refine ⟨?_, ?_, ?_⟩
                · intro hi
                  refine hf0 ?_
                  show s.found = dpCollected cfg.generateLevel
                    (s.log ++ [DPEvent.instSeen defId s.generateDepth])
                  rw [dpCollected_append, dpCollected_instSeen, hi]
                  simp
                · intro hi
                  refine hb0 ?_
                  show s.numBlocksSeen =
                    countInstSeenLE cfg.generateLevel
                      (s.log ++ [DPEvent.instSeen defId s.generateDepth]) +
                    countGenSeenLT cfg.generateLevel
                      (s.log ++ [DPEvent.instSeen defId s.generateDepth])
                  rw [countInstSeenLE_append, countGenSeenLT_append, countInstSeenLE_single_inst,
                    countGenSeenLT_single_inst, if_neg hle, hi]
                  omega
                · intro hi
                  refine hg0 ?_
                  exact dpDescendGood_append _ _ _ hi (dpDescendGood_instSeen _ _ _)
          · rw [if_neg hin] at h
            by_cases hact : defId ∈ s.activeInstances
            · rw [if_pos hact] at h
              dsimp only at h
              by_cases hle : s.generateDepth ≤ cfg.generateLevel
              · rw [if_pos hle] at h
                split at h
                · exact absurd h (by simp)
                · rename_i st0 heq
                  cases h
                  obtain ⟨hf0, hb0, hg0⟩ := ih (GJob.seq (D.gbodies defId)) _ st0 heq
                  refine ⟨?_, ?_, ?_⟩
                  · intro hi
                    refine hf0 ?_
                    show s.found = dpCollected cfg.generateLevel
                      (s.log ++ [DPEvent.instSeen defId s.generateDepth])
                    rw [dpCollected_append, dpCollected_instSeen, hi]
                    simp
                  · intro hi
                    refine hb0 ?_
                    show s.numBlocksSeen + 1 =
                      countInstSeenLE cfg.generateLevel
                        (s.log ++ [DPEvent.instSeen defId s.generateDepth]) +
                      countGenSeenLT cfg.generateLevel
                        (s.log ++ [DPEvent.instSeen defId s.generateDepth])
                    rw [countInstSeenLE_append, countGenSeenLT_append, countInstSeenLE_single_inst,
                      countGenSeenLT_single_inst, if_pos hle, hi]
                    omega
                  · intro hi
                    refine hg0 ?_
                    exact dpDescendGood_append _ _ _ hi (dpDescendGood_instSeen _ _ _)
              · rw [if_neg hle] at h
                split at h
                · exact absurd h (by simp)
                · rename_i st0 heq
                  cases h
                  obtain ⟨hf0, hb0, hg0⟩ := ih (GJob.seq (D.gbodies defId)) _ st0 heq
                  refine ⟨?_, ?_, ?_⟩
                  · intro hi
                    refine hf0 ?_
                    show s.found = dpCollected cfg.generateLevel
                      (s.log ++ [DPEvent.instSeen defId s.generateDepth])
                    rw [dpCollected_append, dpCollected_instSeen, hi]
                    simp
                  · intro hi
                    refine hb0 ?_
                    show s.numBlocksSeen =
                      countInstSeenLE cfg.generateLevel
                        (s.log ++ [DPEvent.instSeen defId s.generateDepth]) +
                      countGenSeenLT cfg.generateLevel
                        (s.log ++ [DPEvent.instSeen defId s.generateDepth])
                    rw [countInstSeenLE_append, countGenSeenLT_append, countInstSeenLE_single_inst,
                      countGenSeenLT_single_inst, if_neg hle, hi]
                    omega
                  · intro hi
                    refine hg0 ?_
                    exact dpDescendGood_append _ _ _ hi (dpDescendGood_instSeen _ _ _)
            · rw [if_neg hact] at h
              dsimp only at h
              by_cases hle : s.generateDepth ≤ cfg.generateLevel
              · rw [if_pos hle] at h
                split at h
                · exact absurd h (by simp)
                · rename_i st0 heq
                  cases h
                  obtain ⟨hf0, hb0, hg0⟩ := ih (GJob.seq (D.gbodies defId)) _ st0 heq
                  refine ⟨?_, ?_, ?_⟩
                  · intro hi
                    refine hf0 ?_
                    show s.found = dpCollected cfg.generateLevel
                      (s.log ++ [DPEvent.instSeen defId s.generateDepth])
                    rw [dpCollected_append, dpCollected_instSeen, hi]
                    simp
                  · intro hi
                    refine hb0 ?_
                    show s.numBlocksSeen + 1 =
                      countInstSeenLE cfg.generateLevel
                        (s.log ++ [DPEvent.instSeen defId s.generateDepth]) +
                      countGenSeenLT cfg.generateLevel
                        (s.log ++ [DPEvent.instSeen defId s.generateDepth])
                    rw [countInstSeenLE_append, countGenSeenLT_append, countInstSeenLE_single_inst,
                      countGenSeenLT_single_inst, if_pos hle, hi]
                    omega
                  · intro hi
                    refine hg0 ?_
                    exact dpDescendGood_append _ _ _ hi (dpDescendGood_instSeen _ _ _)
              · rw [if_neg hle] at h
                split at h
                · exact absurd h (by simp)
                · rename_i st0 heq
                  cases h
                  obtain ⟨hf0, hb0, hg0⟩ := ih (GJob.seq (D.gbodies defId)) _ st0 heq
                  refine ⟨?_, ?_, ?_⟩
                  · intro hi
                    refine hf0 ?_
                    show s.found = dpCollected cfg.generateLevel
                      (s.log ++ [DPEvent.instSeen defId s.generateDepth])
                    rw [dpCollected_append, dpCollected_instSeen, hi]
                    simp
                  · intro hi
                    refine hb0 ?_
                    show s.numBlocksSeen =
                      countInstSeenLE cfg.generateLevel
                        (s.log ++ [DPEvent.instSeen defId s.generateDepth]) +
                      countGenSeenLT cfg.generateLevel
                        (s.log ++ [DPEvent.instSeen defId s.generateDepth])
                    rw [countInstSeenLE_append, countGenSeenLT_append, countInstSeenLE_single_inst,
                      countGenSeenLT_single_inst, if_neg hle, hi]
                    omega
                  · intro hi
                    refine hg0 ?_
                    exact dpDescendGood_append _ _ _ hi (dpDescendGood_instSeen _ _ _)
    | GJob.one (GSym.gen isInst ms) =>
      simp only [visitG] at h
      by_cases hg : (!isInst || s.hierarchyProblem.isSome) = true
      · rw [if_pos hg] at h
        cases h
        exact ⟨fun hi => hi, fun hi => hi, fun hi => hi⟩
      · rw [if_neg hg] at h
        by_cases hstop : cfg.generateLevel ≤ s.generateDepth ∧ s.inRecursiveInstance = false
        · rw [if_pos hstop] at h
          cases h
          refine ⟨?_, ?_, ?_⟩
          · intro hi
            show s.found = dpCollected cfg.generateLevel
              (s.log ++ [DPEvent.genSeen s.generateDepth s.inRecursiveInstance])
            rw [dpCollected_append, dpCollected_genSeen, hi]
            simp
          · intro hi
            show s.numBlocksSeen =
              countInstSeenLE cfg.generateLevel
                (s.log ++ [DPEvent.genSeen s.generateDepth s.inRecursiveInstance]) +
              countGenSeenLT cfg.generateLevel
                (s.log ++ [DPEvent.genSeen s.generateDepth s.inRecursiveInstance])
            rw [countInstSeenLE_append, countGenSeenLT_append, countInstSeenLE_single_gen,
              countGenSeenLT_single_gen,
              if_neg (by omega : ¬ s.generateDepth < cfg.generateLevel), hi]
            omega
          · intro hi
            exact dpDescendGood_append _ _ _ hi (dpDescendGood_genSeen _ _ _)
        · rw [if_neg hstop] at h
          have hd : s.generateDepth < cfg.generateLevel ∨ s.inRecursiveInstance = true := by
            by_cases h1 : cfg.generateLevel ≤ s.generateDepth
            · right
              cases hb : s.inRecursiveInstance
              · exact absurd ⟨h1, hb⟩ hstop
              · rfl
            · left; omega
          by_cases hlt : s.generateDepth < cfg.generateLevel
          · rw [if_pos hlt] at h
            split at h
            · exact absurd h (by simp)
            · rename_i st0 heq
              cases h
              obtain ⟨hf0, hb0, hg0⟩ := ih (GJob.seq ms) _ st0 heq
              refine ⟨?_, ?_, ?_⟩
              · intro hi
                refine hf0 ?_
                show s.found = dpCollected cfg.generateLevel
                  (s.log ++ [DPEvent.genSeen s.generateDepth s.inRecursiveInstance] ++
                   [DPEvent.genDescend s.generateDepth s.inRecursiveInstance])
                rw [dpCollected_append, dpCollected_append, dpCollected_genSeen,
                  dpCollected_genDescend, hi]
                simp
              · intro hi
                refine hb0 ?_
                show s.numBlocksSeen + 1 =
                  countInstSeenLE cfg.generateLevel
                    (s.log ++ [DPEvent.genSeen s.generateDepth s.inRecursiveInstance] ++
                     [DPEvent.genDescend s.generateDepth s.inRecursiveInstance]) +
                  countGenSeenLT cfg.generateLevel
                    (s.log ++ [DPEvent.genSeen s.generateDepth s.inRecursiveInstance] ++
                     [DPEvent.genDescend s.generateDepth s.inRecursiveInstance])
                rw [countInstSeenLE_append, countInstSeenLE_append, countGenSeenLT_append,
                  countGenSeenLT_append, countInstSeenLE_single_gen, countInstSeenLE_single_genD,
                  countGenSeenLT_single_gen, countGenSeenLT_single_genD, if_pos hlt, hi]
                omega
              · intro hi
                refine hg0 ?_
                exact dpDescendGood_append _ _ _
                  (dpDescendGood_append _ _ _ hi (dpDescendGood_genSeen _ _ _))
                  (dpDescendGood_genDescend _ _ _ hd)
          · rw [if_neg hlt] at h
            split at h
            · exact absurd h (by simp)
            · rename_i st0 heq
              cases h
              obtain ⟨hf0, hb0, hg0⟩ := ih (GJob.seq ms) _ st0 heq
              refine ⟨?_, ?_, ?_⟩
              · intro hi
                refine hf0 ?_
                show s.found = dpCollected cfg.generateLevel
                  (s.log ++ [DPEvent.genSeen s.generateDepth s.inRecursiveInstance] ++
                   [DPEvent.genDescend s.generateDepth s.inRecursiveInstance])
                rw [dpCollected_append, dpCollected_append, dpCollected_genSeen,
                  dpCollected_genDescend, hi]
                simp
              · intro hi
                refine hb0 ?_
                show s.numBlocksSeen =
                  countInstSeenLE cfg.generateLevel
                    (s.log ++ [DPEvent.genSeen s.generateDepth s.inRecursiveInstance] ++
                     [DPEvent.genDescend s.generateDepth s.inRecursiveInstance]) +
                  countGenSeenLT cfg.generateLevel
                    (s.log ++ [DPEvent.genSeen s.generateDepth s.inRecursiveInstance] ++
                     [DPEvent.genDescend s.generateDepth s.inRecursiveInstance])
                rw [countInstSeenLE_append, countInstSeenLE_append, countGenSeenLT_append,
                  countGenSeenLT_append, countInstSeenLE_single_gen, countInstSeenLE_single_genD,
                  countGenSeenLT_single_gen, countGenSeenLT_single_genD, if_neg hlt, hi]
                omega
              · intro hi
                refine hg0 ?_
                exact dpDescendGood_append _ _ _
                  (dpDescendGood_append _ _ _ hi (dpDescendGood_genSeen _ _ _))
                  (dpDescendGood_genDescend _ _ _ hd)

/-- C7: in any defparam traversal from a fresh visitor state, a defparam is
collected exactly when its handler ran with `generateDepth <= generateLevel`
(the `found` list equals the defparams seen at or below the target level,
in order), and the visitor never descends into an instantiated generate
block at `generateDepth >= generateLevel` unless it is inside a
recursive-instance probe. -/
theorem claim_C7 (D : DPDesign) (cfg : DPConfig) (fuel : Nat) (j : GJob) (st : DPState)
    (h : visitG D cfg fuel j dpInit = some st) :
    st.found = dpCollected cfg.generateLevel st.log ∧
    (∀ d b, DPEvent.genDescend d b ∈ st.log → d < cfg.generateLevel ∨ b = true) := by
  obtain ⟨hf, _, hg⟩ := visitG_main D cfg fuel j dpInit st h
  refine ⟨hf rfl, hg ?_⟩
  intro d b hm
  simp [dpInit] at hm

/-- C7 witness: the level-1 traversal of a design with defparams at depths
0 and 1 collects exactly those defparams, with every generate descent
strictly below the target level. -/
theorem claim_C7_witness :
    dpState1.found = dpCollected dpConfig1.generateLevel dpState1.log ∧
    (∀ d b, DPEvent.genDescend d b ∈ dpState1.log →
      d < dpConfig1.generateLevel ∨ b = true) :=
  claim_C7 dpDesign dpConfig1 30 (GJob.seq dpDesign.top) dpState1 rfl

/-- C8 counterexample: on the mutually recursive design at target level 0,
the code's counter is 4 while the claim's count (instances entered at depth
<= 0 plus instantiated generate blocks whose handler ran at depth <= 0) is
6; even counting only the generate blocks actually descended into at depth
<= 0 gives 5, so the claimed equality fails either way. -/
theorem claim_C8_counterexample :
    dpRecState.numBlocksSeen = 4 ∧
    countInstSeenLE dpRecConfig.generateLevel dpRecState.log +
      countGenSeenLE dpRecConfig.generateLevel dpRecState.log = 6 ∧
    ¬ (dpRecState.numBlocksSeen =
        countInstSeenLE dpRecConfig.generateLevel dpRecState.log +
        countGenSeenLE dpRecConfig.generateLevel dpRecState.log) ∧
    ¬ (dpRecState.numBlocksSeen =
        countInstSeenLE dpRecConfig.generateLevel dpRecState.log +
        countGenDescendLE dpRecConfig.generateLevel dpRecState.log) := by
  decide

/-- C8 (amended): after a defparam traversal from a fresh visitor state,
`numBlocksSeen` equals the number of instances entered (past the
hierarchy-problem and depth-cap early-outs) at `generateDepth <=
generateLevel` plus the number of instantiated generate blocks reached at
`generateDepth` strictly below `generateLevel`; generate blocks at exactly
the target level are not counted. -/
theorem claim_C8 (D : DPDesign) (cfg : DPConfig) (fuel : Nat) (j : GJob) (st : DPState)
    (h : visitG D cfg fuel j dpInit = some st) :
    st.numBlocksSeen =
      countInstSeenLE cfg.generateLevel st.log +
      countGenSeenLT cfg.generateLevel st.log :=
  (visitG_main D cfg fuel j dpInit st h).2.1 rfl

/-- C8 witness: the amended count law on the mutually recursive design
(4 = 4 + 0). -/
theorem claim_C8_witness :
    dpRecState.numBlocksSeen =
      countInstSeenLE dpRecConfig.generateLevel dpRecState.log +
      countGenSeenLT dpRecConfig.generateLevel dpRecState.log :=
  claim_C8 dpRecDesign dpRecConfig 30 (GJob.seq dpRecDesign.top) dpRecState rfl

/-! ## Lemmas: generic-class fixpoint -/

theorem addSpecPair_visited (st : GCState) (p : Nat × Nat) :
    (addSpecPair st p).visitedSpecs = st.visitedSpecs := by
  unfold addSpecPair; split <;> rfl

theorem addSpecPair_visitLog (st : GCState) (p : Nat × Nat) :
    (addSpecPair st p).visitLog = st.visitLog := by
  unfold addSpecPair; split <;> rfl

theorem addSpecPair_invalidLog (st : GCState) (p : Nat × Nat) :
    (addSpecPair st p).invalidLog = st.invalidLog := by
  unfold addSpecPair; split <;> rfl

theorem foldl_addSpecPair_visited (l : List (Nat × Nat)) :
    ∀ st : GCState, (l.foldl addSpecPair st).visitedSpecs = st.visitedSpecs := by
  induction l with
  | nil => intro st; rfl
  | cons p l ih => intro st; rw [List.foldl_cons, ih, addSpecPair_visited]

theorem foldl_addSpecPair_visitLog (l : List (Nat × Nat)) :
    ∀ st : GCState, (l.foldl addSpecPair st).visitLog = st.visitLog := by
  induction l with
  | nil => intro st; rfl
  | cons p l ih => intro st; rw [List.foldl_cons, ih, addSpecPair_visitLog]

theorem foldl_addSpecPair_invalidLog (l : List (Nat × Nat)) :
    ∀ st : GCState, (l.foldl addSpecPair st).invalidLog = st.invalidLog := by
  induction l with
  | nil => intro st; rfl
  | cons p l ih => intro st; rw [List.foldl_cons, ih, addSpecPair_invalidLog]

theorem visitOneSpec_visited (D : GCDesign) (st : GCState) (sp : Nat) :
    (visitOneSpec D st sp).visitedSpecs = st.visitedSpecs := by
  unfold visitOneSpec
  rw [foldl_addSpecPair_visited]

theorem visitOneSpec_visitLog (D : GCDesign) (st : GCState) (sp : Nat) :
    (visitOneSpec D st sp).visitLog = st.visitLog ++ [sp] := by
  unfold visitOneSpec
  rw [foldl_addSpecPair_visitLog]

theorem foldl_visit_visited (D : GCDesign) (l : List Nat) :
    ∀ st : GCState, (l.foldl (visitOneSpec D) st).visitedSpecs = st.visitedSpecs := by
  induction l with
  | nil => intro st; rfl
  | cons sp l ih => intro st; rw [List.foldl_cons, ih, visitOneSpec_visited]

theorem foldl_visit_visitLog (D : GCDesign) (l : List Nat) :
    ∀ st : GCState, (l.foldl (visitOneSpec D) st).visitLog = st.visitLog ++ l := by
  induction l with
  | nil => intro st; simp
  | cons sp l ih =>
    intro st
    rw [List.foldl_cons, ih, visitOneSpec_visitLog]
    simp

theorem scanStep_para (m t : List Nat) (sp : Nat) :
    ∃ u, scanStep (m, t) sp = (m ++ u, t ++ u) := by
  unfold scanStep
  by_cases h : sp ∈ m
  · exact ⟨[], by simp [h]⟩
  · exact ⟨[sp], by simp [h]⟩

theorem foldl_scanStep_para (l : List Nat) :
    ∀ m t, ∃ u, l.foldl scanStep (m, t) = (m ++ u, t ++ u) := by
  induction l with
  | nil => intro m t; exact ⟨[], by simp⟩
  | cons sp l ih =>
    intro m t
    rw [List.foldl_cons]
    by_cases h : sp ∈ m
    · have : scanStep (m, t) sp = (m, t) := by simp [scanStep, h]
      rw [this]
      exact ih m t
    · have : scanStep (m, t) sp = (m ++ [sp], t ++ [sp]) := by simp [scanStep, h]
      rw [this]
      obtain ⟨u, hu⟩ := ih (m ++ [sp]) (t ++ [sp])
      exact ⟨[sp] ++ u, by rw [hu]; simp⟩

theorem scanClass_para (l marks : List Nat) :
    ∃ u, scanClass l marks = (marks ++ u, u) := by
  unfold scanClass
  obtain ⟨u, hu⟩ := foldl_scanStep_para l marks []
  exact ⟨u, by rw [hu]; simp⟩

theorem foldl_scanStep_mem (l : List Nat) :
    ∀ m t sp, sp ∈ l → sp ∈ (l.foldl scanStep (m, t)).1 := by
  induction l with
  | nil => intro m t sp h; simp at h
  | cons a l ih =>
    intro m t sp h
    rw [List.foldl_cons]
    rcases List.mem_cons.mp h with rfl | h2
    · by_cases ha : sp ∈ m
      · have : scanStep (m, t) sp = (m, t) := by simp [scanStep, ha]
        rw [this]
        obtain ⟨u, hu⟩ := foldl_scanStep_para l m t
        rw [hu]
        exact List.mem_append_left u ha
      · have : scanStep (m, t) sp = (m ++ [sp], t ++ [sp]) := by simp [scanStep, ha]
        rw [this]
        obtain ⟨u, hu⟩ := foldl_scanStep_para l (m ++ [sp]) (t ++ [sp])
        rw [hu]
        exact List.mem_append_left u (List.mem_append_right m (List.mem_singleton.mpr rfl))
    · by_cases ha : a ∈ m
      · have : scanStep (m, t) a = (m, t) := by simp [scanStep, ha]
        rw [this]
        exact ih m t sp h2
      · have : scanStep (m, t) a = (m ++ [a], t ++ [a]) := by simp [scanStep, ha]
        rw [this]
        exact ih (m ++ [a]) (t ++ [a]) sp h2

theorem scanClass_mem (l marks : List Nat) (sp : Nat) (h : sp ∈ l) :
    sp ∈ (scanClass l marks).1 :=
  foldl_scanStep_mem l marks [] sp h

theorem passClasses_minv (D : GCDesign) :
    ∀ (cs : List Nat) (st : GCState) (did : Bool),
      marksVisitedInv st → marksVisitedInv (passClasses D cs st did).1 := by
  intro cs
  induction cs with
  | nil => intro st did h; exact h
  | cons c cs ih =>
    intro st did h
    simp only [passClasses]
    apply ih
    obtain ⟨u, hu⟩ := scanClass_para (st.specs c) st.visitedSpecs
    intro x hx
    rw [foldl_visit_visited] at hx
    rw [foldl_visit_visitLog]
    have hx2 : x ∈ st.visitedSpecs ++ u := by
      have : x ∈ (scanClass (st.specs c) st.visitedSpecs).1 := hx
      rw [hu] at this
      exact this
    show x ∈ st.visitLog ++ (scanClass (st.specs c) st.visitedSpecs).2
    rw [hu]
    rcases List.mem_append.mp hx2 with hx3 | hx3
    · exact List.mem_append_left _ (h x hx3)
    · exact List.mem_append_right _ hx3

theorem passClasses_false (D : GCDesign) :
    ∀ (cs : List Nat) (st : GCState) (did : Bool),
      (passClasses D cs st did).2 = false →
      did = false ∧
      (passClasses D cs st did).1.specs = st.specs ∧
      (passClasses D cs st did).1.visitLog = st.visitLog ∧
      (∃ u, (passClasses D cs st did).1.visitedSpecs = st.visitedSpecs ++ u) ∧
      (∀ c ∈ cs, ∀ sp ∈ st.specs c, sp ∈ (passClasses D cs st did).1.visitedSpecs) := by
  intro cs
  induction cs with
  | nil =>
    intro st did h
    refine ⟨h, rfl, rfl, ⟨[], by simp [passClasses]⟩, ?_⟩
    intro c hc
    simp at hc
  | cons c cs ih =>
    intro st did h
    simp only [passClasses] at h ⊢
    obtain ⟨u, hu⟩ := scanClass_para (st.specs c) st.visitedSpecs
    obtain ⟨hdid2, hspecs, hlog, ⟨u2, hvis⟩, hmem⟩ := ih _ _ h
    have hdid : did = false ∧ (scanClass (st.specs c) st.visitedSpecs).2.isEmpty = true := by
      rcases Bool.or_eq_false_iff.mp hdid2 with ⟨h1, h2⟩
      exact ⟨h1, by revert h2; cases (scanClass (st.specs c) st.visitedSpecs).2.isEmpty <;> simp⟩
    have hu0 : u = [] := by
      have h2 := hdid.2
      rw [hu] at h2
      exact List.isEmpty_iff.mp h2
    subst hu0
    refine ⟨hdid.1, ?_, ?_, ?_, ?_⟩
    · rw [hspecs, hu]
      rfl
    · rw [hlog, hu]
      rfl
    · refine ⟨u2, ?_⟩
      rw [hvis, hu]
      simp
    · intro c2 hc2 sp hsp
      rcases List.mem_cons.mp hc2 with rfl | hc3
      · have hin1 : sp ∈ (scanClass (st.specs c2) st.visitedSpecs).1 :=
          scanClass_mem _ _ sp hsp
        rw [hu] at hin1
        rw [hvis, hu]
        refine List.mem_append_left _ ?_
        exact hin1
      · apply hmem c2 hc3 sp
        rw [hu]
        exact hsp

theorem phase1_all_visited (D : GCDesign) :
    ∀ (fuel : Nat) (st st1 : GCState),
      marksVisitedInv st → phase1 D fuel st = some st1 →
      marksVisitedInv st1 ∧ ∀ c ∈ D.classes, ∀ sp ∈ st1.specs c, sp ∈ st1.visitLog := by
  intro fuel
  induction fuel with
  | zero => intro st st1 _ h; simp [phase1] at h
  | succ fuel ih =>
    intro st st1 hm h
    simp only [phase1] at h
    by_cases hdid : (passClasses D D.classes st false).2 = true
    · rw [if_pos hdid] at h
      exact ih _ st1 (passClasses_minv D D.classes st false hm) h
    · rw [if_neg hdid] at h
      cases h
      have hff : (passClasses D D.classes st false).2 = false := by
        revert hdid
        cases (passClasses D D.classes st false).2 <;> simp
      obtain ⟨_, hspecs, _, _, hmem⟩ := passClasses_false D D.classes st false hff
      have hm1 : marksVisitedInv (passClasses D D.classes st false).1 :=
        passClasses_minv D D.classes st false hm
      refine ⟨hm1, fun c hc sp hsp => ?_⟩
      rw [hspecs] at hsp
      exact hm1 sp (hmem c hc sp hsp)

theorem foldl_phase2step_visitLog (D : GCDesign) (cs : List Nat) :
    ∀ st : GCState,
      (cs.foldl (fun st c =>
        if (st.specs c).length = 0 then
          (D.invalidTriggers c).foldl addSpecPair { st with invalidLog := st.invalidLog ++ [c] }
        else st) st).visitLog = st.visitLog := by
  induction cs with
  | nil => intro st; rfl
  | cons c cs ih =>
    intro st
    rw [List.foldl_cons, ih]
    by_cases h : (st.specs c).length = 0
    · rw [if_pos h, foldl_addSpecPair_visitLog]
    · rw [if_neg h]

theorem phase2_visitLog (D : GCDesign) (st : GCState) :
    (phase2 D st).visitLog = st.visitLog :=
  foldl_phase2step_visitLog D D.classes st

/-- C9 counterexample: one collected generic class with zero
specializations whose invalid-specialization visit demands a real
specialization (id 7).  `finalize` returns with that specialization
existing but never visited, refuting the claim that no unvisited
specialization of any collected generic class exists after `finalize`. -/
theorem claim_C9_counterexample :
    finalizeGC gcInvDesign 3 = some gcInvState ∧
    ¬ (∀ c ∈ gcInvDesign.classes, ∀ sp ∈ gcInvState.specs c, sp ∈ gcInvState.visitLog) :=
  ⟨rfl, by decide⟩

/-- C9 (amended): when the fixpoint loop of `finalize` exits, every
specialization then existing of every collected generic class has been
visited, and those visits survive the trailing invalid-specialization pass
(which never removes visits); only specializations newly created by the
invalid-specialization pass itself can remain unvisited. -/
theorem claim_C9 (D : GCDesign) (fuel : Nat) (st1 : GCState)
    (h : phase1 D fuel (gcInit D) = some st1) :
    ∀ c ∈ D.classes, ∀ sp ∈ st1.specs c,
      sp ∈ st1.visitLog ∧ sp ∈ (phase2 D st1).visitLog := by
  have h0 : marksVisitedInv (gcInit D) := by
    intro x hx
    simp [gcInit] at hx
  obtain ⟨_, hall⟩ := phase1_all_visited D fuel (gcInit D) st1 h0 h
  intro c hc sp hsp
  have hv := hall c hc sp hsp
  refine ⟨hv, ?_⟩
  rw [phase2_visitLog]
  exact hv

/-- C9 witness: the cascading design (visiting specialization 1 creates 2,
visiting 2 creates 3) reaches its fixpoint with specialization 3 of class 0
visited, before and after the invalid-specialization pass. -/
theorem claim_C9_witness :
    3 ∈ gcCascadeState.specs 0 ∧ 3 ∈ gcCascadeState.visitLog ∧
    3 ∈ (phase2 gcCascadeDesign gcCascadeState).visitLog := by
  have h := claim_C9 gcCascadeDesign 6 gcCascadeState rfl 0 (by decide) 3 (by decide)
  exact ⟨by decide, h.1, h.2⟩
